import Mathlib

/-!
Shallow embedding of the fragmented-MP4 muxer in `src/mp4mux.ts`
(module RtmpJs.MP4) and proofs about it.

Modelling conventions:
* A JavaScript `Uint8Array` is a `List Nat` (`Bytes`); every entry produced by
  the source is `< 256`.  Out-of-bounds reads, which yield `undefined` in JS and
  then coerce to `0` in every arithmetic context the source uses, are modelled
  with `List.getD _ 0`; reads whose result is compared with `!== 0` before any
  arithmetic are modelled with `List.get?` (`undefined` is `none`).
* JS exceptions become `Except MuxError`.  The generic `Error` values thrown by
  the source are split by their message into the kinds named by the spec, plus
  `typeError` for the runtime `TypeError` raised by a property access on
  `undefined` (which is not any of the spec's error kinds).
* JS numbers are IEEE-754 binary64.  The duration expressions
  `(a / b * c) | 0` (line 454) and `(a / b) | 0` (line 468) are modelled
  exactly: operands round to the nearest double, each `/` and `*` rounds its
  exact result to the nearest double (ties to even), and `| 0` truncates and
  wraps to a signed 32-bit integer (`ToInt32`); `NaN | 0` and
  `Infinity | 0` give `0`.  A double is a dyadic pair `(m, e) : Nat × Int`
  with value `m * 2 ^ e` (all values here are nonnegative); `rne`,
  `roundDoubleND` and friends below implement the rounding.  Overflow needs
  no separate case: a rounded value `≥ 2 ^ 1024` has `e ≥ 32`, so it and the
  `Infinity` the real arithmetic would produce both map to `0` under
  `ToInt32`.  The remaining float arithmetic on durations
  (`totalDuration +=`, `length *`, `cachedDuration +=`) is modelled as exact
  `Int` arithmetic, which agrees with binary64 while the accumulated
  magnitudes stay below `2 ^ 53` (the summands are `ToInt32` results, so
  this holds for any run shorter than `2 ^ 21` fragments).
* The `filePos` field is omitted: the source only increments it and reads it
  back solely to build the `moofOffset` local (line 430), which is dead code
  (never referenced after construction).  The dead local `currentTrackTime`
  (line 442) and the dead `metadata` local of `generateHeader` (line 341) are
  likewise omitted.
* The byte templates of the header (`ftyp`/`moov`) and fragment (`moof`/`mdat`)
  boxes are fixed constants in the source; emission is modelled as structured
  `Output` events carrying exactly the run-time-dependent values written into
  those boxes (fragment sequence number, `tfdt` value, per-sample durations and
  sizes, composition times).  The in-place `avcC[5] |= 0xE0` write mutates a
  buffer that is dropped immediately afterwards and is therefore not modelled.
  The only failure this abstraction hides is a `tag` length overflow, which
  needs a single sample payload of at least 2^31 - 90 bytes.
* On a thrown exception the source can leave partially mutated state behind;
  the spec declares such an instance unusable ("must be discarded by the
  caller"), so the `Except` model simply returns the error.
-/

namespace RtmpJs
namespace MP4

/-- Error kinds.  The spec's named kinds plus `typeError`, the runtime
`TypeError` JS raises on a property access on `undefined`. -/
inductive MuxError where
  | unsupportedCodec (msg : String)
  | unknownPacketType (t : Nat)
  | formatError (msg : String)
  | configurationError (msg : String)
  | unsupportedTrackType
  | typeError (msg : String)
deriving DecidableEq, Repr

/-- A byte buffer (each entry intended `< 256`). -/
abbrev Bytes := List Nat

/-- `encodeInt32` (line 56): big-endian bytes of the 32-bit two's-complement
value of `n`, written `[(n >> 24) & 255, (n >> 16) & 255, (n >> 8) & 255, n & 255]`
in the source. -/
def encodeInt32 (n : Int) : Bytes :=
  let m := (n % 4294967296).toNat
  [(m >>> 24) &&& 255, (m >>> 16) &&& 255, (m >>> 8) &&& 255, m &&& 255]

/-- Values accepted by the source's `flatten` builder (line 28): a raw byte
buffer, a single numeric byte, a character string, or a nested array. -/
inductive JSVal where
  | bytes (b : Bytes)
  | num (n : Nat)
  | str (s : String)
  | arr (xs : List JSVal)
deriving Repr

/-- `flatten` (line 28): concatenates nested fragments into one buffer.
A number becomes one byte (`Uint8Array` coerces mod 256); a string keeps
`charCodeAt(i) & 255` of each character. -/
def flatten : JSVal → Bytes
  | .bytes b => b
  | .num n => [n % 256]
  | .str s => s.data.map (fun c => c.toNat % 256)
  | .arr [] => []
  | .arr (x :: xs) => flatten x ++ flatten (.arr xs)

/-- `tag` (line 76): length-prefixed box wrap.  Throws on a type tag that is
not exactly 4 characters or a total length above `0x7FFFFFFF`. -/
def tag (name : String) (data : JSVal) : Except MuxError Bytes :=
  if name.length ≠ 4 then
    .error (.formatError ("bad tag name: " ++ name))
  else
    let d := flatten data
    let len := 8 + d.length
    if len > 0x7FFFFFFF then .error (.formatError "bad tag length")
    else .ok (encodeInt32 len ++ flatten (.str name) ++ d)

def SOUNDRATES : List Nat := [5500, 11025, 22050, 44100]
def MP3_SOUND_CODEC_ID : Nat := 2
def AAC_SOUND_CODEC_ID : Nat := 10

/-- Parsed audio packet (interface `AudioPacket`, line 93).  `samples` and
`packetType` are `none` when the source leaves them `undefined`.  The
`codecDescription` field is omitted: it only feeds error-message strings. -/
structure AudioPacket where
  codecId : Nat
  rate : Nat
  size : Nat
  channels : Nat
  samples : Option Nat
  packetType : Option Nat
  data : Bytes
deriving DecidableEq, Repr, Inhabited

/-- `parseAudiodata` (line 103). -/
def parseAudiodata (data : Bytes) : AudioPacket :=
  let b0 := data.getD 0 0
  let codecId := b0 >>> 4
  let rate := SOUNDRATES.getD ((b0 >>> 2) &&& 3) 0
  let size := if b0 &&& 2 ≠ 0 then 16 else 8
  let channels := if b0 &&& 1 ≠ 0 then 2 else 1
  if codecId = AAC_SOUND_CODEC_ID then
    { codecId := codecId, rate := rate, size := size, channels := channels,
      samples := some 1024, packetType := data.get? 1, data := data.drop 2 }
  else if codecId = MP3_SOUND_CODEC_ID then
    let version := (data.getD 2 0 >>> 3) &&& 3
    let layer := (data.getD 2 0 >>> 1) &&& 3
    let samples :=
      if layer = 1 then (if version = 3 then 1152 else 576)
      else (if layer = 3 then 384 else 1152)
    { codecId := codecId, rate := rate, size := size, channels := channels,
      samples := some samples, packetType := none, data := data.drop 1 }
  else
    { codecId := codecId, rate := rate, size := size, channels := channels,
      samples := none, packetType := none, data := data.drop 1 }

def VP6_VIDEO_CODEC_ID : Nat := 4
def AVC_VIDEO_CODEC_ID : Nat := 7

/-- Parsed video packet (interface `VideoPacket`, line 134). -/
structure VideoPacket where
  frameType : Nat
  codecId : Nat
  packetType : Option Nat
  compositionTime : Option Int
  horizontalOffset : Option Nat
  verticalOffset : Option Nat
  data : Bytes
deriving DecidableEq, Repr, Inhabited

/-- `parseVideodata` (line 145).  The AVC composition time is the sign-extended
24-bit big-endian value of bytes 2..4. -/
def parseVideodata (data : Bytes) : VideoPacket :=
  let b0 := data.getD 0 0
  let frameType := b0 >>> 4
  let codecId := b0 &&& 15
  if codecId = AVC_VIDEO_CODEC_ID then
    let u := (data.getD 2 0) * 65536 + (data.getD 3 0) * 256 + data.getD 4 0
    let ct : Int := if u < 8388608 then (u : Int) else (u : Int) - 16777216
    { frameType := frameType, codecId := codecId, packetType := data.get? 1,
      compositionTime := some ct, horizontalOffset := none,
      verticalOffset := none, data := data.drop 5 }
  else if codecId = VP6_VIDEO_CODEC_ID then
    let b1 := data.getD 1 0
    { frameType := frameType, codecId := codecId, packetType := none,
      compositionTime := none, horizontalOffset := some ((b1 >>> 4) &&& 15),
      verticalOffset := some (b1 &&& 15), data := data.drop 2 }
  else
    { frameType := frameType, codecId := codecId, packetType := none,
      compositionTime := none, horizontalOffset := none,
      verticalOffset := none, data := data.drop 1 }

def AUDIO_PACKET : Nat := 8
def VIDEO_PACKET : Nat := 9
def MAX_PACKETS_IN_CHUNK : Nat := 5

/-- A parsed sample held in a track cache.  The source stores the parser
result as an untyped `packet`; property accesses on the wrong variant yield
`undefined` in JS, so the accessors below return `Option`/defaults. -/
inductive Packet where
  | audio (a : AudioPacket)
  | video (v : VideoPacket)
deriving DecidableEq, Repr, Inhabited

/-- JS `packet.samples`: `undefined` on a video packet. -/
def Packet.samples : Packet → Option Nat
  | .audio a => a.samples
  | .video _ => none

/-- JS `packet.data`. -/
def Packet.pdata : Packet → Bytes
  | .audio a => a.data
  | .video v => v.data

/-- JS `packet.frameType`: `undefined` on an audio packet. -/
def Packet.frameType : Packet → Option Nat
  | .audio _ => none
  | .video v => some v.frameType

/-- JS `packet.compositionTime`: `undefined` on an audio or VP6 packet. -/
def Packet.compositionTime : Packet → Option Int
  | .audio _ => none
  | .video v => v.compositionTime

/-- `CachedPacket` (line 176). -/
structure CachedPacket where
  packet : Packet
  timestamp : Int
deriving DecidableEq, Repr, Inhabited

/-- `MP4Track` (line 181).  Optional fields are `undefined` in JS until the
constructor fills them in. -/
structure MP4Track where
  language : String
  type : String
  timescale : Nat
  cache : List CachedPacket
  cachedDuration : Int
  samplerate : Option Nat := none
  channels : Option Nat := none
  framerate : Option Nat := none
  width : Option Nat := none
  height : Option Nat := none
deriving DecidableEq, Repr, Inhabited

/-- Muxer state (the private fields of class `MP4Mux`, line 196).  `metadata`
and `filePos` are omitted (see the file comment); `state` is `0` for
Uninitialized and `1` for HeaderEmitted. -/
structure MP4Mux where
  tracks : List MP4Track
  audioTrackId : Int
  videoTrackId : Int
  waitForAdditionalData : Bool
  cachedPackets : Nat
  state : Nat
  chunkIndex : Nat
deriving DecidableEq, Repr, Inhabited

/-- One per-track fragment sub-box (`traf`), reduced to the run-time-dependent
values the source writes into it: the track id, the `tfdt` base-media-decode
time, and the `trun` entries. -/
inductive TrafData where
  | audio (trackId : Nat) (tfdtValue : Int) (durations : List Int)
      (sizes : List Nat) (totalDuration : Int)
  | video (trackId : Nat) (tfdtValue : Int) (frameDuration : Int)
      (sizes : List Nat) (compositionTimes : List Int) (firstIsKey : Bool)
      (totalDuration : Int)
deriving DecidableEq, Repr

/-- One `ondata` emission: the file header (`ftyp`+`moov`, carrying the track
count written into `mvhd`) or one fragment (`moof`+`mdat`, carrying the `mfhd`
sequence number and the per-track sub-boxes). -/
inductive Output where
  | header (trackCount : Nat)
  | fragment (seq : Nat) (trafs : List TrafData)
deriving DecidableEq, Repr

/-- Result of a muxer operation: the new state plus the outputs delivered to
the `ondata` sink, or the thrown error. -/
abbrev MuxResult := Except MuxError (MP4Mux × List Output)

/-- Sequential composition of muxer operations, concatenating their outputs;
an error aborts (the JS exception propagates). -/
def andThen (r : MuxResult) (f : MP4Mux → MuxResult) : MuxResult :=
  match r with
  | .error e => .error e
  | .ok (m, outs) =>
    match f m with
    | .error e => .error e
    | .ok (m', outs') => .ok (m', outs ++ outs')

/-!  IEEE-754 binary64 arithmetic, as far as the duration expressions of
`_chunk` need it.  A (nonnegative, finite) double is a dyadic pair
`(m, e) : Nat × Int` of value `m * 2 ^ e`; rounding a nonnegative rational
`n / d` to the nearest double picks the grid `2 ^ (-s)` of the value's binade
(spacing `2 ^ (k - 52)` for `2 ^ k ≤ n / d < 2 ^ (k + 1)` down to the
subnormal spacing `2 ^ (-1074)`) and rounds `n / d` to the nearest multiple,
ties to even.  Shifts (`<<<`, `>>>`) stand for multiplication and division by
powers of two.  -/

/-- Round-to-nearest, ties-to-even: the integer nearest `p / q`. -/
def rne (p q : Nat) : Nat :=
  let m0 := p / q
  let r := p % q
  if 2 * r < q then m0
  else if q < 2 * r then m0 + 1
  else if m0 % 2 = 0 then m0 else m0 + 1

/-- Binary descent for the floor base-2 logarithm: `log2Aux j n` is
`⌊log2 n⌋` for `1 ≤ n < 2 ^ 2 ^ j` (and `0` at `n = 0`), in `j` steps. -/
def log2Aux : Nat → Nat → Nat
  | 0, _ => 0
  | j + 1, n =>
    if 1 <<< (1 <<< j) ≤ n then log2Aux j (n >>> (1 <<< j)) + (1 <<< j)
    else log2Aux j n

/-- `⌊log2 n⌋` for `1 ≤ n < 2 ^ 2 ^ 20` (far beyond every quantity in
scope), computed in 20 steps. -/
def nlog2 (n : Nat) : Nat := log2Aux 20 n

/-- The nearest binary64 double to the rational `n / d`, as a dyadic pair.
`⌊log2 (n / d)⌋` is recovered from the integer `⌊n * 2 ^ 1100 / d⌋`, which
is exact whenever `n / d ≥ 2 ^ (-1100)`; below that the binade is clamped to
the subnormal grid `s = 1074` anyway, which is also where every exponent
`k < -1022` lands.  A zero numerator or denominator (`0 / 0`, `x / 0`: `NaN`
or `Infinity` in JS, which `| 0` later sends to `0`) yields `(0, 0)`. -/
def roundDoubleND (n d : Nat) : Nat × Int :=
  if n = 0 ∨ d = 0 then (0, 0)
  else
    let k : Int := (nlog2 (n <<< 1100 / d) : Int) - 1100
    let s : Int := if -1022 ≤ k then 52 - k else 1074
    if 0 ≤ s then (rne (n <<< s.toNat) d, -s)
    else (rne n (d <<< (-s).toNat), -s)

/-- `roundDoubleND` on `(n / d) * 2 ^ sh`. -/
def roundDoubleScaled (n d : Nat) (sh : Int) : Nat × Int :=
  if 0 ≤ sh then roundDoubleND (n <<< sh.toNat) d
  else roundDoubleND n (d <<< (-sh).toNat)

/-- A `Nat` of the program coerced to a JS number: the nearest double. -/
def jsNum (n : Nat) : Nat × Int := roundDoubleND n 1

/-- Binary64 division: the exact quotient, rounded to the nearest double. -/
def dyDiv (a b : Nat × Int) : Nat × Int :=
  roundDoubleScaled a.1 b.1 (a.2 - b.2)

/-- Binary64 multiplication: the exact product, rounded to the nearest
double. -/
def dyMul (a b : Nat × Int) : Nat × Int :=
  roundDoubleScaled (a.1 * b.1) 1 (a.2 + b.2)

/-- JS `| 0` (`ToInt32`) on a nonnegative double: truncate to an integer,
wrap modulo `2 ^ 32`, reinterpret as signed. -/
def dyToInt32 (x : Nat × Int) : Int :=
  let F := if 0 ≤ x.2 then x.1 <<< x.2.toNat else x.1 >>> (-x.2).toNat
  let w := F % 4294967296
  if w < 2147483648 then (w : Int) else (w : Int) - 4294967296

/-- The audio sample duration of `_chunk` (line 454):
`(samples / samplerate * timescale) | 0` in binary64 arithmetic. -/
def audioFrameDuration (samples samplerate timescale : Nat) : Int :=
  dyToInt32 (dyMul (dyDiv (jsNum samples) (jsNum samplerate)) (jsNum timescale))

/-- `(a / b) | 0` in binary64 arithmetic (the video frame duration of
`_chunk`, line 468). -/
def jsDivInt32 (a b : Nat) : Int :=
  dyToInt32 (dyDiv (jsNum a) (jsNum b))

/-- The audio loop of `_chunk` (lines 452-458): per cached sample, the encoded
`trun` duration `(samples / samplerate * timescale) | 0` (binary64, see
`audioFrameDuration`; an `undefined` `samples` or `samplerate` makes it `NaN`
and the duration `0`, matching `getD 0`) and the payload size, plus the
accumulated `totalDuration`. -/
def audioRun (t : MP4Track) : List CachedPacket → (List Int × List Nat × Int)
  | [] => ([], [], 0)
  | c :: rest =>
    let d := audioFrameDuration (c.packet.samples.getD 0)
      (t.samplerate.getD 0) t.timescale
    let (ds, ss, tot) := audioRun t rest
    (d :: ds, c.packet.pdata.length :: ss, d + tot)

/-- The per-track body of `_chunk` (lines 436-491): a track with an empty
cache is skipped; an audio (`mp4a`/`mp3`) or video (`avc1`/`vp6f`) track
contributes a `traf`, has the fragment duration added to `cachedDuration`,
and its cache cleared; any other type throws (line 487). -/
def chunkTrack (t : MP4Track) (trackId : Nat) :
    Except MuxError (Option (TrafData × MP4Track)) :=
  match t.cache with
  | [] => .ok none
  | c0 :: rest =>
    if t.type = "mp4a" ∨ t.type = "mp3" then
      let (durations, sizes, totalDuration) := audioRun t (c0 :: rest)
      .ok (some (.audio trackId t.cachedDuration durations sizes totalDuration,
        { t with
          cachedDuration := t.cachedDuration + totalDuration
          cache := [] }))
    else if t.type = "avc1" ∨ t.type = "vp6f" then
      let videoFrameDuration := jsDivInt32 t.timescale (t.framerate.getD 0)
      let firstIsKey := c0.packet.frameType = some 1
      let sizes := (c0 :: rest).map fun c => c.packet.pdata.length
      let ctts := (c0 :: rest).map fun c => c.packet.compositionTime.getD 0
      let totalDuration := ((c0 :: rest).length : Int) * videoFrameDuration
      .ok (some (.video trackId t.cachedDuration videoFrameDuration sizes ctts
          firstIsKey totalDuration,
        { t with
          cachedDuration := t.cachedDuration + totalDuration
          cache := [] }))
    else .error (.unsupportedCodec "unsupported codec")

/-- The `_chunk` track loop (line 436), threading `trackId = i + 1`. -/
def chunkTracks : List MP4Track → Nat →
    Except MuxError (List MP4Track × List TrafData)
  | [], _ => .ok ([], [])
  | t :: ts, trackId =>
    match chunkTrack t trackId with
    | .error e => .error e
    | .ok none =>
      match chunkTracks ts (trackId + 1) with
      | .error e => .error e
      | .ok (ts', trafs) => .ok (t :: ts', trafs)
    | .ok (some (traf, t')) =>
      match chunkTracks ts (trackId + 1) with
      | .error e => .error e
      | .ok (ts', trafs) => .ok (t' :: ts', traf :: trafs)

/-- `_chunk` (line 429): pre-increments `chunkIndex` into the `mfhd` box,
builds one `traf` per nonempty track, emits the fragment, and resets the
pending-packet counter. -/
def MP4Mux.chunk_ (m : MP4Mux) : Except MuxError (MP4Mux × Output) :=
  match chunkTracks m.tracks 1 with
  | .error e => .error e
  | .ok (tracks', trafs) =>
    .ok ({ m with
           tracks := tracks'
           chunkIndex := m.chunkIndex + 1
           cachedPackets := 0 },
         .fragment (m.chunkIndex + 1) trafs)

/-- The per-track body of `generateHeader` (lines 344-417): an `mp4a` or
`avc1` track reads `cache[0].packet.data` — a runtime `TypeError` when the
cache is empty (`cache[0]` is `undefined`); an unknown type throws
(line 382); on success the cache is cleared (line 415). -/
def headerTrack (t : MP4Track) : Except MuxError MP4Track :=
  if t.type = "mp4a" then
    match t.cache with
    | [] => .error (.typeError "cannot read packet of undefined: cache[0]")
    | _ :: _ => .ok { t with cache := [] }
  else if t.type = "mp3" then .ok { t with cache := [] }
  else if t.type = "avc1" then
    match t.cache with
    | [] => .error (.typeError "cannot read packet of undefined: cache[0]")
    | _ :: _ => .ok { t with cache := [] }
  else if t.type = "vp6f" then .ok { t with cache := [] }
  else .error .unsupportedTrackType

/-- The `generateHeader` track loop (line 344). -/
def headerTracks : List MP4Track → Except MuxError (List MP4Track)
  | [] => .ok []
  | t :: ts =>
    match headerTrack t with
    | .error e => .error e
    | .ok t' =>
      match headerTracks ts with
      | .error e => .error e
      | .ok ts' => .ok (t' :: ts')

/-- `generateHeader` (line 338): builds the `ftyp`+`moov` header, emits it,
clears every cache, zeroes the pending counter and moves to state 1. -/
def MP4Mux.generateHeader (m : MP4Mux) : Except MuxError (MP4Mux × Output) :=
  match headerTracks m.tracks with
  | .error e => .error e
  | .ok tracks' =>
    .ok ({ m with tracks := tracks', cachedPackets := 0, state := 1 },
         .header m.tracks.length)

/-- `generateHeader` lifted to a `MuxResult` step. -/
def MP4Mux.headerStep (m : MP4Mux) : MuxResult :=
  match m.generateHeader with
  | .error e => .error e
  | .ok (m', o) => .ok (m', [o])

/-- `_chunk` lifted to a `MuxResult` step. -/
def MP4Mux.chunkStep (m : MP4Mux) : MuxResult :=
  match m.chunk_ with
  | .error e => .error e
  | .ok (m', o) => .ok (m', [o])

/-- A step that does nothing. -/
def noStep (m : MP4Mux) : MuxResult := .ok (m, [])

/-- Replace `cache` of the track at an index with `cache ++ [c]`. -/
def pushCacheAt : List MP4Track → Nat → CachedPacket → List MP4Track
  | [], _, _ => []
  | t :: ts, 0, c => { t with cache := t.cache ++ [c] } :: ts
  | t :: ts, n + 1, c => t :: pushCacheAt ts n c

/-- `this.tracks[trackId].cache.push(...)` followed by `this.cachedPackets++`
(lines 298-299 and 320-321).  When `trackId` is `-1` (no such track was
configured) `this.tracks[trackId]` is `undefined` and the `.cache` access
raises a runtime `TypeError`. -/
def MP4Mux.cachePush (m : MP4Mux) (trackId : Int) (p : Packet) (ts : Int) :
    MuxResult :=
  if 0 ≤ trackId ∧ trackId.toNat < m.tracks.length then
    .ok ({ m with
           tracks := pushCacheAt m.tracks trackId.toNat ⟨p, ts⟩
           cachedPackets := m.cachedPackets + 1 }, [])
  else .error (.typeError "cannot read cache of undefined: tracks[trackId]")

/-- The chunking ceiling at the end of `pushPacket` (lines 327-329). -/
def MP4Mux.ceilingStep (m : MP4Mux) : MuxResult :=
  if m.cachedPackets ≥ MAX_PACKETS_IN_CHUNK then m.chunkStep else noStep m

/-- `pushPacket` (line 279). -/
def MP4Mux.pushPacket (m : MP4Mux) (ptype : Nat) (data : Bytes)
    (timestamp : Int) : MuxResult :=
  andThen
    (if m.state = 0 ∧ m.waitForAdditionalData = false then m.headerStep
     else noStep m)
    fun m =>
      if ptype = AUDIO_PACKET then
        let audioPacket := parseAudiodata data
        if audioPacket.codecId = MP3_SOUND_CODEC_ID then
          andThen (m.cachePush m.audioTrackId (.audio audioPacket) timestamp)
            fun m => m.ceilingStep
        else if audioPacket.codecId = AAC_SOUND_CODEC_ID then
          andThen
            (if audioPacket.packetType ≠ some 0 ∧ m.state = 0 then m.headerStep
             else noStep m)
            fun m =>
              andThen (m.cachePush m.audioTrackId (.audio audioPacket) timestamp)
                fun m => m.ceilingStep
        else .error (.unsupportedCodec "unsupported audio codec")
      else if ptype = VIDEO_PACKET then
        let videoPacket := parseVideodata data
        if videoPacket.codecId = VP6_VIDEO_CODEC_ID then
          andThen
            (if videoPacket.frameType = 1 ∧ m.cachedPackets ≠ 0 then m.chunkStep
             else noStep m)
            fun m =>
              andThen (m.cachePush m.videoTrackId (.video videoPacket) timestamp)
                fun m => m.ceilingStep
        else if videoPacket.codecId = AVC_VIDEO_CODEC_ID then
          andThen
            (if videoPacket.packetType ≠ some 0 ∧ m.state = 0 then m.headerStep
             else noStep m)
            fun m =>
              andThen
                (if videoPacket.frameType = 1 ∧ m.cachedPackets ≠ 0 then
                   m.chunkStep
                 else noStep m)
                fun m =>
                  andThen
                    (m.cachePush m.videoTrackId (.video videoPacket) timestamp)
                    fun m => m.ceilingStep
        else .error (.unsupportedCodec "unsupported video codec")
      else .error (.unknownPacketType ptype)

/-- `flush` (line 332). -/
def MP4Mux.flush (m : MP4Mux) : MuxResult :=
  if m.cachedPackets > 0 then m.chunkStep else .ok (m, [])

/-- A dynamically typed metadata field: the source compares `audiocodecid` /
`videocodecid` with strings (explicit path, `===` a codec tag) and with
numbers (legacy path, `!== 2` / `!== 4`); `none` is JS `undefined`. -/
inductive MetaVal where
  | num (n : Int)
  | str (s : String)
deriving DecidableEq, Repr

/-- JS truthiness of an optional metadata field (`if (metadata.audiocodecid)`:
`undefined`, `0` and the empty string are falsy). -/
def truthy : Option MetaVal → Bool
  | none => false
  | some (.num n) => n ≠ 0
  | some (.str s) => s ≠ ""

/-- One entry of `info.sampledescription`. -/
structure SampleDescription where
  sampletype : String
deriving DecidableEq, Repr

/-- One entry of `metadata.trackinfo`.  The source reads
`sampledescription[0]` without a bounds check; all claims use nonempty
descriptor lists, and the model reads the head with a default. -/
structure TrackInfo where
  language : String
  sampledescription : List SampleDescription
  timescale : Nat
deriving DecidableEq, Repr

/-- Construction metadata.  Numeric fields that the source coerces with `+`
or reads raw are `Option Nat` (`none` is JS `undefined`). -/
structure Metadata where
  trackinfo : Option (List TrackInfo) := none
  audiocodecid : Option MetaVal := none
  videocodecid : Option MetaVal := none
  audiosamplerate : Option Nat := none
  audiochannels : Option Nat := none
  videoframerate : Option Nat := none
  framerate : Option Nat := none
  width : Option Nat := none
  height : Option Nat := none
deriving DecidableEq, Repr

/-- JS `+x || d`: `undefined` (`NaN`) and `0` fall back to the default. -/
def natOr (x : Option Nat) (d : Nat) : Nat :=
  match x with
  | some n => if n = 0 then d else n
  | none => d

/-- The explicit-path track loop of the constructor (lines 218-238),
threading the loop index and the last assigned audio/video track ids. -/
def buildTracks (md : Metadata) :
    List TrackInfo → Nat → Int → Int → (List MP4Track × Int × Int)
  | [], _, aid, vid => ([], aid, vid)
  | info :: rest, i, aid, vid =>
    let st := (info.sampledescription.headD ⟨""⟩).sampletype
    let isA := md.audiocodecid = some (.str st)
    let isV := ¬isA ∧ md.videocodecid = some (.str st)
    let track : MP4Track :=
      { language := info.language, type := st, timescale := info.timescale,
        cache := [], cachedDuration := 0,
        samplerate := if isA then md.audiosamplerate else none,
        channels := if isA then md.audiochannels else none,
        framerate := if isV then md.videoframerate else none,
        width := if isV then md.width else none,
        height := if isV then md.height else none }
    let (ts, aid', vid') :=
      buildTracks md rest (i + 1) (if isA then (i : Int) else aid)
        (if isV then (i : Int) else vid)
    (track :: ts, aid', vid')

/-- The `MP4Mux` constructor (line 211).  With `trackinfo` present (any
array is truthy) one track per descriptor is built and the header is
deferred; otherwise the legacy single-codec path requires audio codec id 2
(MP3) and video codec id 4 (VP6). -/
def MP4Mux.create (metadata : Metadata) : Except MuxError MP4Mux :=
  match metadata.trackinfo with
  | some infos =>
    let (tracks, aid, vid) := buildTracks metadata infos 0 (-1) (-1)
    .ok { tracks := tracks, audioTrackId := aid, videoTrackId := vid,
          waitForAdditionalData := true, cachedPackets := 0, state := 0,
          chunkIndex := 0 }
  | none =>
    let audioPart : Except MuxError (List MP4Track × Int) :=
      if truthy metadata.audiocodecid then
        if metadata.audiocodecid ≠ some (.num 2) then
          .error (.configurationError "unsupported audio codec")
        else
          .ok ([{ language := "unk", type := "mp3",
                  timescale := natOr metadata.audiosamplerate 44100,
                  samplerate := some (natOr metadata.audiosamplerate 44100),
                  channels := some (natOr metadata.audiochannels 2),
                  cache := [], cachedDuration := 0 }], 0)
      else .ok ([], -1)
    match audioPart with
    | .error e => .error e
    | .ok (tracks, aid) =>
      if truthy metadata.videocodecid then
        if metadata.videocodecid ≠ some (.num 4) then
          .error (.configurationError "unsupported video codec")
        else
          .ok { tracks := tracks ++
                  [{ language := "unk", type := "vp6f", timescale := 10000,
                     framerate := metadata.framerate,
                     width := metadata.width, height := metadata.height,
                     cache := [], cachedDuration := 0 }],
                audioTrackId := aid, videoTrackId := (tracks.length : Int),
                waitForAdditionalData := false, cachedPackets := 0,
                state := 0, chunkIndex := 0 }
      else
        .ok { tracks := tracks, audioTrackId := aid, videoTrackId := -1,
              waitForAdditionalData := false, cachedPackets := 0,
              state := 0, chunkIndex := 0 }

/-- One external call on the muxer. -/
inductive Cmd where
  | push (ptype : Nat) (data : Bytes) (timestamp : Int)
  | flush
deriving Repr

/-- Run a sequence of external calls, concatenating all emitted outputs. -/
def MP4Mux.run (m : MP4Mux) : List Cmd → MuxResult
  | [] => .ok (m, [])
  | c :: cs =>
    andThen
      (match c with
       | .push t d ts => m.pushPacket t d ts
       | .flush => m.flush)
      fun m' => m'.run cs

/-- Construct from metadata, then run the calls. -/
def runFromCreate (md : Metadata) (cmds : List Cmd) : MuxResult :=
  match MP4Mux.create md with
  | .error e => .error e
  | .ok m => m.run cmds

/-- Outputs of a successful result (`[]` after an error). -/
def muxOutputs (r : MuxResult) : List Output :=
  match r with
  | .ok (_, outs) => outs
  | .error _ => []

/-- Final state of a successful result (the default state after an error). -/
def muxStateD (r : MuxResult) : MP4Mux :=
  match r with
  | .ok (m, _) => m
  | .error _ => default

/-- Whether the operation completed without throwing. -/
def MuxResult.isOk (r : MuxResult) : Bool :=
  match r with
  | .ok _ => true
  | .error _ => false

/-- The `mfhd` sequence numbers of the emitted fragments, in emission order. -/
def fragSeqs (outs : List Output) : List Nat :=
  outs.filterMap fun o =>
    match o with
    | .fragment s _ => some s
    | .header _ => none

/-- How many header emissions a list of outputs contains. -/
def headerCount (outs : List Output) : Nat :=
  (outs.filter fun o =>
    match o with
    | .header _ => true
    | .fragment _ _ => false).length

/-- Total number of samples pending across all track caches. -/
def MP4Mux.pendingCount (m : MP4Mux) : Nat :=
  (m.tracks.map fun t => t.cache.length).sum

/-- Big-endian decoding of the first four bytes of a buffer. -/
def beDecode4 (b : Bytes) : Nat :=
  b.getD 0 0 * 16777216 + b.getD 1 0 * 65536 + b.getD 2 0 * 256 + b.getD 3 0

/-- The track types `generateHeader` and `chunk_` know how to encode. -/
def supportedType (t : MP4Track) : Prop :=
  t.type = "mp4a" ∨ t.type = "mp3" ∨ t.type = "avc1" ∨ t.type = "vp6f"

instance (t : MP4Track) : Decidable (supportedType t) := by
  unfold supportedType; infer_instance

/-!  Basic lemmas about sequential composition.  -/

theorem andThen_error (e : MuxError) (f : MP4Mux → MuxResult) :
    andThen (.error e) f = .error e := rfl

theorem andThen_ok_left (m : MP4Mux) (outs : List Output)
    (f : MP4Mux → MuxResult) :
    andThen (.ok (m, outs)) f =
      match f m with
      | .error e => .error e
      | .ok (m', outs') => .ok (m', outs ++ outs') := rfl

theorem andThen_ok_nil (m : MP4Mux) (f : MP4Mux → MuxResult) :
    andThen (.ok (m, [])) f = f m := by
  cases hf : f m with
  | error e => simp [andThen, hf]
  | ok p => simp [andThen, hf]

theorem andThen_ok {r : MuxResult} {f : MP4Mux → MuxResult} {m' : MP4Mux}
    {outs : List Output} (h : andThen r f = .ok (m', outs)) :
    ∃ m₁ outs₁ outs₂, r = .ok (m₁, outs₁) ∧ f m₁ = .ok (m', outs₂) ∧
      outs = outs₁ ++ outs₂ := by
  cases hr : r with
  | error e => simp [andThen, hr] at h
  | ok p =>
    obtain ⟨m₁, outs₁⟩ := p
    cases hf : f m₁ with
    | error e => simp [andThen, hr, hf] at h
    | ok q =>
      obtain ⟨m₂, outs₂⟩ := q
      simp only [andThen, hr, hf] at h
      obtain ⟨h1, h2⟩ := Prod.mk.injEq .. ▸ (Except.ok.injEq .. ▸ h)
      exact ⟨m₁, outs₁, outs₂, rfl, by rw [hf, h1], h2.symm⟩

/-!  Characterizations of the elementary steps.  -/

theorem chunk_ok {m m' : MP4Mux} {out : Output} (h : m.chunk_ = .ok (m', out)) :
    ∃ tracks' trafs, chunkTracks m.tracks 1 = .ok (tracks', trafs) ∧
      m' = { m with
             tracks := tracks'
             chunkIndex := m.chunkIndex + 1
             cachedPackets := 0 } ∧
      out = .fragment (m.chunkIndex + 1) trafs := by
  unfold MP4Mux.chunk_ at h
  cases hc : chunkTracks m.tracks 1 with
  | error e => rw [hc] at h; cases h
  | ok p =>
    obtain ⟨tracks', trafs⟩ := p
    rw [hc] at h
    obtain ⟨h1, h2⟩ := Prod.mk.injEq .. ▸ (Except.ok.injEq .. ▸ h)
    exact ⟨tracks', trafs, rfl, h1.symm, h2.symm⟩

theorem chunkStep_ok {m m' : MP4Mux} {outs : List Output}
    (h : m.chunkStep = .ok (m', outs)) :
    ∃ tracks' trafs, chunkTracks m.tracks 1 = .ok (tracks', trafs) ∧
      m' = { m with
             tracks := tracks'
             chunkIndex := m.chunkIndex + 1
             cachedPackets := 0 } ∧
      outs = [.fragment (m.chunkIndex + 1) trafs] := by
  unfold MP4Mux.chunkStep at h
  cases hc : m.chunk_ with
  | error e => rw [hc] at h; cases h
  | ok p =>
    obtain ⟨m₁, out⟩ := p
    rw [hc] at h
    obtain ⟨tracks', trafs, hct, hm, ho⟩ := chunk_ok hc
    obtain ⟨h1, h2⟩ := Prod.mk.injEq .. ▸ (Except.ok.injEq .. ▸ h)
    exact ⟨tracks', trafs, hct, h1 ▸ hm, by rw [← h2, ho]⟩

theorem generateHeader_ok {m m' : MP4Mux} {out : Output}
    (h : m.generateHeader = .ok (m', out)) :
    ∃ tracks', headerTracks m.tracks = .ok tracks' ∧
      m' = { m with tracks := tracks', cachedPackets := 0, state := 1 } ∧
      out = .header m.tracks.length := by
  unfold MP4Mux.generateHeader at h
  cases hc : headerTracks m.tracks with
  | error e => rw [hc] at h; cases h
  | ok tracks' =>
    rw [hc] at h
    obtain ⟨h1, h2⟩ := Prod.mk.injEq .. ▸ (Except.ok.injEq .. ▸ h)
    exact ⟨tracks', rfl, h1.symm, h2.symm⟩

theorem headerStep_ok {m m' : MP4Mux} {outs : List Output}
    (h : m.headerStep = .ok (m', outs)) :
    ∃ tracks', headerTracks m.tracks = .ok tracks' ∧
      m' = { m with tracks := tracks', cachedPackets := 0, state := 1 } ∧
      outs = [.header m.tracks.length] := by
  unfold MP4Mux.headerStep at h
  cases hc : m.generateHeader with
  | error e => rw [hc] at h; cases h
  | ok p =>
    obtain ⟨m₁, out⟩ := p
    rw [hc] at h
    obtain ⟨tracks', hct, hm, ho⟩ := generateHeader_ok hc
    obtain ⟨h1, h2⟩ := Prod.mk.injEq .. ▸ (Except.ok.injEq .. ▸ h)
    exact ⟨tracks', hct, h1 ▸ hm, by rw [← h2, ho]⟩

theorem cachePush_ok {m m' : MP4Mux} {tid : Int} {p : Packet} {ts : Int}
    {outs : List Output} (h : m.cachePush tid p ts = .ok (m', outs)) :
    0 ≤ tid ∧ tid.toNat < m.tracks.length ∧
      m' = { m with
             tracks := pushCacheAt m.tracks tid.toNat ⟨p, ts⟩
             cachedPackets := m.cachedPackets + 1 } ∧
      outs = [] := by
  unfold MP4Mux.cachePush at h
  split at h
  · next hv =>
    obtain ⟨h1, h2⟩ := Prod.mk.injEq .. ▸ (Except.ok.injEq .. ▸ h)
    exact ⟨hv.1, hv.2, h1.symm, h2.symm⟩
  · cases h

/-!  Facts about the `generateHeader` track loop.  -/

theorem headerTrack_ok {t t' : MP4Track} (h : headerTrack t = .ok t') :
    t' = { t with cache := [] } ∧
      ((t.type = "mp4a" ∨ t.type = "avc1") → t.cache ≠ []) := by
  unfold headerTrack at h
  split_ifs at h with h1 h2 h3 h4
  · cases hc : t.cache with
    | nil => rw [hc] at h; cases h
    | cons c rest =>
      rw [hc] at h
      exact ⟨(Except.ok.inj h).symm, fun _ => by simp⟩
  · refine ⟨(Except.ok.inj h).symm, fun hor => ?_⟩
    rcases hor with h' | h'
    · exact absurd h' h1
    · rw [h2] at h'; exact absurd h' (by decide)
  · cases hc : t.cache with
    | nil => rw [hc] at h; cases h
    | cons c rest =>
      rw [hc] at h
      exact ⟨(Except.ok.inj h).symm, fun _ => by simp⟩
  · refine ⟨(Except.ok.inj h).symm, fun hor => ?_⟩
    rcases hor with h' | h'
    · exact absurd h' h1
    · exact absurd h' h3

theorem headerTrack_total {t : MP4Track} (hs : supportedType t)
    (hne : (t.type = "mp4a" ∨ t.type = "avc1") → t.cache ≠ []) :
    headerTrack t = .ok { t with cache := [] } := by
  unfold headerTrack
  rcases hs with h | h | h | h
  · obtain ⟨c, rest, hc⟩ := List.exists_cons_of_ne_nil (hne (Or.inl h))
    rw [h, if_pos rfl, hc]
  · rw [h, if_neg (by decide), if_pos rfl]
  · obtain ⟨c, rest, hc⟩ := List.exists_cons_of_ne_nil (hne (Or.inr h))
    rw [h, if_neg (by decide), if_neg (by decide), if_pos rfl, hc]
  · rw [h, if_neg (by decide), if_neg (by decide), if_neg (by decide),
      if_pos rfl]

theorem headerTrack_empty {t : MP4Track}
    (hor : t.type = "mp4a" ∨ t.type = "avc1") (hc : t.cache = []) :
    headerTrack t =
      .error (.typeError "cannot read packet of undefined: cache[0]") := by
  unfold headerTrack
  rcases hor with h | h
  · rw [h, if_pos rfl, hc]
  · rw [h, if_neg (by decide), if_neg (by decide), if_pos rfl, hc]

theorem headerTracks_nonempty {ts ts' : List MP4Track}
    (h : headerTracks ts = .ok ts') :
    ∀ t ∈ ts, (t.type = "mp4a" ∨ t.type = "avc1") → t.cache ≠ [] := by
  induction ts generalizing ts' with
  | nil => intro t ht; cases ht
  | cons t rest ih =>
    intro u hu
    unfold headerTracks at h
    cases h1 : headerTrack t with
    | error e => rw [h1] at h; cases h
    | ok t1 =>
      rw [h1] at h
      cases h2 : headerTracks rest with
      | error e => rw [h2] at h; cases h
      | ok rest' =>
        rcases List.mem_cons.mp hu with rfl | hmem
        · exact (headerTrack_ok h1).2
        · exact ih h2 u hmem

theorem headerTracks_total {ts : List MP4Track}
    (hs : ∀ t ∈ ts, supportedType t)
    (hne : ∀ t ∈ ts, (t.type = "mp4a" ∨ t.type = "avc1") → t.cache ≠ []) :
    headerTracks ts = .ok (ts.map fun t => { t with cache := [] }) := by
  induction ts with
  | nil => rfl
  | cons t rest ih =>
    unfold headerTracks
    rw [headerTrack_total (hs t (by simp)) (hne t (by simp)),
      ih (fun u hu => hs u (by simp [hu])) (fun u hu => hne u (by simp [hu]))]
    simp

theorem headerTracks_empty_error {ts : List MP4Track}
    (hs : ∀ t ∈ ts, supportedType t)
    (he : ∃ t ∈ ts, (t.type = "mp4a" ∨ t.type = "avc1") ∧ t.cache = []) :
    headerTracks ts =
      .error (.typeError "cannot read packet of undefined: cache[0]") := by
  induction ts with
  | nil => obtain ⟨t, ht, _⟩ := he; cases ht
  | cons t rest ih =>
    unfold headerTracks
    by_cases hfirst : (t.type = "mp4a" ∨ t.type = "avc1") ∧ t.cache = []
    · rw [headerTrack_empty hfirst.1 hfirst.2]
    · have hne : (t.type = "mp4a" ∨ t.type = "avc1") → t.cache ≠ [] := by
        intro hor hc; exact hfirst ⟨hor, hc⟩
      rw [headerTrack_total (hs t (by simp)) hne]
      obtain ⟨u, hu, hprop⟩ := he
      rcases List.mem_cons.mp hu with rfl | hmem
      · exact absurd hprop hfirst
      · rw [ih (fun v hv => hs v (by simp [hv])) ⟨u, hmem, hprop⟩]

theorem headerTracks_types {ts ts' : List MP4Track}
    (h : headerTracks ts = .ok ts') :
    ts'.map (fun t => t.type) = ts.map fun t => t.type := by
  induction ts generalizing ts' with
  | nil => cases h; rfl
  | cons t rest ih =>
    unfold headerTracks at h
    cases h1 : headerTrack t with
    | error e => rw [h1] at h; cases h
    | ok t1 =>
      rw [h1] at h
      cases h2 : headerTracks rest with
      | error e => rw [h2] at h; cases h
      | ok rest' =>
        rw [h2] at h
        cases h
        have := (headerTrack_ok h1).1
        simp [this, ih h2]

/-!  Facts about the `chunk_` track loop.  -/

theorem chunkTrack_total {t : MP4Track} (hs : supportedType t) (tid : Nat) :
    ∃ r, chunkTrack t tid = .ok r := by
  unfold chunkTrack
  cases hc : t.cache with
  | nil => exact ⟨none, rfl⟩
  | cons c0 rest =>
    rcases hs with h | h | h | h <;> rw [h] <;> exact ⟨_, rfl⟩

theorem chunkTrack_ok_track {t : MP4Track} {tid : Nat}
    {r : Option (TrafData × MP4Track)} (h : chunkTrack t tid = .ok r) :
    (r = none ∧ t.cache = []) ∨
      ∃ traf t', r = some (traf, t') ∧ t'.cache = [] ∧ t'.type = t.type := by
  unfold chunkTrack at h
  cases hc : t.cache with
  | nil => rw [hc] at h; cases h; exact Or.inl ⟨rfl, rfl⟩
  | cons c0 rest =>
    rw [hc] at h
    split_ifs at h with h1 h2
    · cases h; exact Or.inr ⟨_, _, rfl, rfl, rfl⟩
    · cases h; exact Or.inr ⟨_, _, rfl, rfl, rfl⟩

theorem chunkTracks_total {ts : List MP4Track}
    (hs : ∀ t ∈ ts, supportedType t) (tid : Nat) :
    ∃ ts' trafs, chunkTracks ts tid = .ok (ts', trafs) := by
  induction ts generalizing tid with
  | nil => exact ⟨[], [], rfl⟩
  | cons t rest ih =>
    obtain ⟨r, hr⟩ := chunkTrack_total (hs t (by simp)) tid
    obtain ⟨rest', trafs, hrest⟩ :=
      ih (fun u hu => hs u (by simp [hu])) (tid + 1)
    unfold chunkTracks
    rw [hr, hrest]
    cases r with
    | none => exact ⟨_, _, rfl⟩
    | some p => obtain ⟨traf, t1⟩ := p; exact ⟨_, _, rfl⟩

theorem chunkTracks_clears {ts ts' : List MP4Track} {trafs : List TrafData}
    {tid : Nat} (h : chunkTracks ts tid = .ok (ts', trafs)) :
    ∀ t' ∈ ts', t'.cache = [] := by
  induction ts generalizing ts' trafs tid with
  | nil => cases h; intro t ht; cases ht
  | cons t rest ih =>
    unfold chunkTracks at h
    cases h1 : chunkTrack t tid with
    | error e => rw [h1] at h; cases h
    | ok r =>
      rcases chunkTrack_ok_track h1 with ⟨hr, hemp⟩ | ⟨traf, t1, hr, ht1, _⟩
      · subst hr
        rw [h1] at h
        cases h2 : chunkTracks rest (tid + 1) with
        | error e => rw [h2] at h; cases h
        | ok p =>
          obtain ⟨rest', trafs1⟩ := p
          rw [h2] at h
          cases h
          intro u hu
          rcases List.mem_cons.mp hu with rfl | hmem
          · exact hemp
          · exact ih h2 u hmem
      · subst hr
        rw [h1] at h
        cases h2 : chunkTracks rest (tid + 1) with
        | error e => rw [h2] at h; cases h
        | ok p =>
          obtain ⟨rest', trafs1⟩ := p
          rw [h2] at h
          cases h
          intro u hu
          rcases List.mem_cons.mp hu with rfl | hmem
          · exact ht1
          · exact ih h2 u hmem

theorem chunkTracks_types {ts ts' : List MP4Track} {trafs : List TrafData}
    {tid : Nat} (h : chunkTracks ts tid = .ok (ts', trafs)) :
    ts'.map (fun t => t.type) = ts.map fun t => t.type := by
  induction ts generalizing ts' trafs tid with
  | nil => cases h; rfl
  | cons t rest ih =>
    unfold chunkTracks at h
    cases h1 : chunkTrack t tid with
    | error e => rw [h1] at h; cases h
    | ok r =>
      rcases chunkTrack_ok_track h1 with ⟨hr, hemp⟩ | ⟨traf, t1, hr, ht1, hty⟩
      · subst hr
        rw [h1] at h
        cases h2 : chunkTracks rest (tid + 1) with
        | error e => rw [h2] at h; cases h
        | ok p =>
          obtain ⟨rest', trafs1⟩ := p
          rw [h2] at h
          cases h
          simp [ih h2]
      · subst hr
        rw [h1] at h
        cases h2 : chunkTracks rest (tid + 1) with
        | error e => rw [h2] at h; cases h
        | ok p =>
          obtain ⟨rest', trafs1⟩ := p
          rw [h2] at h
          cases h
          simp [hty, ih h2]

/-- Decidable equality for operation results (not derived by core for
`Except`). -/
instance {ε α : Type} [DecidableEq ε] [DecidableEq α] : DecidableEq (Except ε α)
  | .error e, .error f =>
    if h : e = f then .isTrue (congrArg _ h)
    else .isFalse (fun hh => h (Except.error.inj hh))
  | .error _, .ok _ => .isFalse (fun hh => Except.noConfusion hh)
  | .ok _, .error _ => .isFalse (fun hh => Except.noConfusion hh)
  | .ok a, .ok b =>
    if h : a = b then .isTrue (congrArg _ h)
    else .isFalse (fun hh => h (Except.ok.inj hh))

/-!  Concrete construction scenarios used by witnesses and counterexamples.  -/

/-- Legacy metadata: video-only VP6 stream. -/
def mdVP6 : Metadata :=
  { videocodecid := some (.num 4), framerate := some 30, width := some 100,
    height := some 60 }

/-- The muxer the constructor builds from `mdVP6`. -/
def vp6Track : MP4Track :=
  { language := "unk"
    type := "vp6f"
    timescale := 10000
    cache := []
    cachedDuration := 0
    framerate := some 30
    width := some 100
    height := some 60 }

def muxVP6 : MP4Mux :=
  { tracks := [vp6Track]
    audioTrackId := -1
    videoTrackId := 0
    waitForAdditionalData := false
    cachedPackets := 0
    state := 0
    chunkIndex := 0 }

theorem create_mdVP6 : MP4Mux.create mdVP6 = .ok muxVP6 := by decide

/-- Legacy metadata: audio-only MP3 stream. -/
def mdMP3 : Metadata := { audiocodecid := some (.num 2) }

/-- Explicit-path metadata: a single AAC (`mp4a`) track. -/
def mdAAC : Metadata :=
  { trackinfo := some [{ language := "und", sampledescription := [⟨"mp4a"⟩], timescale := 44100 }]
    audiocodecid := some (.str "mp4a")
    audiosamplerate := some 44100
    audiochannels := some 2 }

/-- Explicit-path metadata: a single AVC (`avc1`) track. -/
def mdAVC : Metadata :=
  { trackinfo := some [{ language := "und", sampledescription := [⟨"avc1"⟩], timescale := 1000 }]
    videocodecid := some (.str "avc1")
    videoframerate := some 30
    width := some 640
    height := some 360 }

/-- Explicit-path metadata: an AAC track followed by an AVC track. -/
def mdBoth : Metadata :=
  { trackinfo := some [
      { language := "und", sampledescription := [⟨"mp4a"⟩], timescale := 44100 },
      { language := "und", sampledescription := [⟨"avc1"⟩], timescale := 1000 }]
    audiocodecid := some (.str "mp4a")
    audiosamplerate := some 44100
    audiochannels := some 2
    videocodecid := some (.str "avc1")
    videoframerate := some 30
    width := some 640
    height := some 360 }

/-- A VP6 inter frame (byte 0 = 0x24: frame type 2, codec 4). -/
def interVP6 : Bytes := [36, 0, 7]

/-- A VP6 key frame (byte 0 = 0x14: frame type 1, codec 4). -/
def keyVP6 : Bytes := [20, 0, 9]

/-- An MP3 frame (byte 0 = 0x2F: codec 2, 44100 Hz, 16-bit, stereo). -/
def mp3Frame : Bytes := [47, 255, 251, 5]

/-- An AAC sequence-configuration packet (byte 0 = 0xAF, packet type 0). -/
def aacCfg : Bytes := [175, 0, 18, 16]

/-- An AAC raw-frame packet (packet type 1). -/
def aacRaw : Bytes := [175, 1, 33, 44]

/-- An AVC sequence-configuration packet (byte 0 = 0x17: key frame, codec 7;
packet type 0). -/
def avcCfg : Bytes := [23, 0, 0, 0, 0, 1, 2, 3, 4, 5, 6]

/-- An AVC coded key frame (packet type 1). -/
def avcKey : Bytes := [23, 1, 0, 0, 0, 9, 9]

/-- An AVC coded inter frame (byte 0 = 0x27: frame type 2, codec 7). -/
def avcInter : Bytes := [39, 1, 0, 0, 0, 8]

/-!  The audio sample-run computation of `_chunk` as a closed form.  -/

theorem audioRun_eq (t : MP4Track) (l : List CachedPacket) :
    audioRun t l =
      (l.map fun c => audioFrameDuration (c.packet.samples.getD 0)
        (t.samplerate.getD 0) t.timescale,
       l.map fun c => c.packet.pdata.length,
       (l.map fun c => audioFrameDuration (c.packet.samples.getD 0)
         (t.samplerate.getD 0) t.timescale).sum) := by
  induction l with
  | nil => rfl
  | cons c rest ih => simp [audioRun, ih]

/-- An `mp4a` track at the parsed 5500 Hz sample rate with one cached raw
AAC frame (1024 samples, 2 payload bytes). -/
def aacTrackCX : MP4Track :=
  { language := "unk"
    type := "mp4a"
    timescale := 5500
    cachedDuration := 0
    samplerate := some 5500
    channels := some 2
    cache := [⟨.audio (parseAudiodata aacRaw), 0⟩] }

/-- C4 counterexample, to the claimed audio duration formula
`floor(frameSampleCount / sampleRate * timescale)`: an `mp4a` track with
`timescale = 5500`, `samplerate = 5500` and one cached AAC frame
(`samples = 1024`) gets run-entry duration `1023` — the binary64 product
`1024 / 5500 * 5500` is `1023.9999999999999`, truncated by `| 0` — while
the exact floor is `1024`. -/
theorem chunkTrack_c4_counterexample :
    chunkTrack aacTrackCX 1 =
      .ok (some
        (.audio 1 0 [1023] [2] 1023,
          { aacTrackCX with
            cachedDuration := 1023
            cache := [] })) ∧
    (1024 * 5500 / 5500 : Nat) = 1024 := by
  constructor
  · decide
  · decide

/-- C4 (amended): for every track contributing to a fragment, the `tfdt`
value written is the track's accumulated `cachedDuration` (not the first
sample's raw timestamp); each audio run entry's duration is the binary64
value `(samples / samplerate * timescale) | 0` (which can fall one below the
exact floor, see the counterexample); the per-track fragment duration is the
sum of those durations for audio and
`count * ((timescale / framerate) | 0)` for video; and `cachedDuration`
grows by exactly that fragment duration. -/
theorem chunkTrack_c4 (t : MP4Track) (tid : Nat) (h : t.cache ≠ []) :
    ((t.type = "mp4a" ∨ t.type = "mp3") →
      chunkTrack t tid = .ok (some
        (.audio tid t.cachedDuration
          (t.cache.map fun c => audioFrameDuration (c.packet.samples.getD 0)
            (t.samplerate.getD 0) t.timescale)
          (t.cache.map fun c => c.packet.pdata.length)
          ((t.cache.map fun c => audioFrameDuration (c.packet.samples.getD 0)
            (t.samplerate.getD 0) t.timescale).sum),
        { t with
          cachedDuration := t.cachedDuration +
            ((t.cache.map fun c => audioFrameDuration (c.packet.samples.getD 0)
              (t.samplerate.getD 0) t.timescale).sum)
          cache := [] }))) ∧
    ((t.type = "avc1" ∨ t.type = "vp6f") →
      chunkTrack t tid = .ok (some
        (.video tid t.cachedDuration (jsDivInt32 t.timescale (t.framerate.getD 0))
          (t.cache.map fun c => c.packet.pdata.length)
          (t.cache.map fun c => c.packet.compositionTime.getD 0)
          (decide ((t.cache.headD default).packet.frameType = some 1))
          ((t.cache.length : Int) * jsDivInt32 t.timescale (t.framerate.getD 0)),
        { t with
          cachedDuration := t.cachedDuration +
            (t.cache.length : Int) * jsDivInt32 t.timescale (t.framerate.getD 0)
          cache := [] }))) := by
  obtain ⟨c0, rest, hc⟩ := List.exists_cons_of_ne_nil h
  constructor
  · intro hty
    rcases hty with h' | h' <;>
      simp [chunkTrack, hc, h', audioRun_eq]
  · intro hty
    rcases hty with h' | h' <;>
      simp [chunkTrack, hc, h', audioRun_eq]

/-- C4 witness: an `mp3` track with two cached MP3 frames
(`1152 / 44100 * 44100` is exactly `1152` in binary64). -/
def mp3TrackW : MP4Track :=
  { language := "unk"
    type := "mp3"
    timescale := 44100
    cachedDuration := 7
    samplerate := some 44100
    channels := some 2
    cache := [⟨.audio (parseAudiodata mp3Frame), 0⟩,
              ⟨.audio (parseAudiodata mp3Frame), 26⟩] }

theorem chunkTrack_c4_witness :
    chunkTrack mp3TrackW 1 =
      .ok (some
        (.audio 1 7 [1152, 1152] [3, 3] 2304,
          { mp3TrackW with
            cachedDuration := 2311
            cache := [] })) := by
  have h := (chunkTrack_c4 mp3TrackW 1 (by decide)).1 (Or.inr rfl)
  rw [h]
  decide

/-- C8: with a zero pending-packet counter, `flush()` is a complete no-op
(same state, no output); with a nonzero counter it performs exactly one
fragment flush, emitting one fragment with the next sequence number and
resetting the counter. -/
theorem flush_c8 (m : MP4Mux) :
    (m.cachedPackets = 0 → m.flush = .ok (m, [])) ∧
    (m.cachedPackets ≠ 0 → ∀ m' outs, m.flush = .ok (m', outs) →
      ∃ trafs, outs = [.fragment (m.chunkIndex + 1) trafs] ∧
        m'.cachedPackets = 0 ∧ m'.chunkIndex = m.chunkIndex + 1 ∧
        m'.state = m.state ∧
        m'.waitForAdditionalData = m.waitForAdditionalData) := by
  constructor
  · intro h0
    unfold MP4Mux.flush
    rw [if_neg (by omega)]
  · intro hne m' outs hok
    unfold MP4Mux.flush at hok
    rw [if_pos (by omega)] at hok
    obtain ⟨tracks', trafs, hct, hm, ho⟩ := chunkStep_ok hok
    subst hm
    exact ⟨trafs, ho, rfl, rfl, rfl, rfl⟩

/-- C8 witness: flushing the fresh legacy VP6 muxer does nothing. -/
theorem flush_c8_witness : muxVP6.flush = .ok (muxVP6, []) :=
  (flush_c8 muxVP6).1 (by decide)

/-!  C5: box wrap layout.  -/

theorem encodeInt32_eq (n : Int) :
    encodeInt32 n =
      [((n % 4294967296).toNat >>> 24) &&& 255,
       ((n % 4294967296).toNat >>> 16) &&& 255,
       ((n % 4294967296).toNat >>> 8) &&& 255,
       (n % 4294967296).toNat &&& 255] := rfl

theorem beDecode4_cons (a b c d : Nat) (l : Bytes) :
    beDecode4 (a :: b :: c :: d :: l) =
      a * 16777216 + b * 65536 + c * 256 + d := rfl

theorem and255_eq_mod (x : Nat) : x &&& 255 = x % 256 := by
  have h := Nat.and_pow_two_sub_one_eq_mod x 8
  norm_num at h
  exact h

theorem beDecode4_encodeInt32_append (L : Nat) (rest : Bytes)
    (hL : L < 4294967296) :
    beDecode4 (encodeInt32 (L : Int) ++ rest) = L := by
  have hm : ((L : Int) % 4294967296).toNat = L := by omega
  rw [encodeInt32_eq, hm]
  simp only [List.cons_append, List.nil_append, beDecode4_cons]
  simp only [Nat.shiftRight_eq_div_pow, and255_eq_mod]
  norm_num
  omega

/-- C5: for a 4-character ASCII tag and a payload with `8 + len ≤ 0x7FFFFFFF`,
the box wrap returns `bigEndian32(8 + len) ++ asciiTag ++ payload` (first four
bytes decode big-endian to the total length, next four are the tag's ASCII
codes, the rest is the payload), and it fails with a `FormatError` exactly
when the tag is not 4 characters or the total length exceeds `0x7FFFFFFF`. -/
theorem tag_c5 (name : String) (P : Bytes)
    (hascii : ∀ c ∈ name.data, c.toNat < 128) :
    (name.length = 4 → 8 + P.length ≤ 2147483647 →
      tag name (.bytes P) =
        .ok (encodeInt32 ((8 + P.length : Nat) : Int) ++
          name.data.map Char.toNat ++ P) ∧
      beDecode4 (encodeInt32 ((8 + P.length : Nat) : Int) ++
          name.data.map Char.toNat ++ P) = 8 + P.length ∧
      (encodeInt32 ((8 + P.length : Nat) : Int)).length = 4 ∧
      (name.data.map Char.toNat).length = 4) ∧
    ((∃ msg, tag name (.bytes P) = .error (.formatError msg)) ↔
      (name.length ≠ 4 ∨ 2147483647 < 8 + P.length)) := by
  have hname : name.data.map (fun c => c.toNat % 256) = name.data.map Char.toNat :=
    List.map_congr_left fun c hc =>
      Nat.mod_eq_of_lt (lt_trans (hascii c hc) (by norm_num))
  constructor
  · intro h4 hlen
    refine ⟨?_, ?_, rfl, ?_⟩
    · unfold tag
      rw [if_neg (by simp [h4])]
      simp only [flatten]
      rw [if_neg (by omega), hname]
    · rw [List.append_assoc]
      exact beDecode4_encodeInt32_append (8 + P.length) _ (by omega)
    · rw [List.length_map]
      exact h4
  · constructor
    · rintro ⟨msg, hmsg⟩
      by_contra hcon
      push_neg at hcon
      obtain ⟨h4, hlen⟩ := hcon
      unfold tag at hmsg
      rw [if_neg (by simp [h4])] at hmsg
      simp only [flatten] at hmsg
      rw [if_neg (by omega)] at hmsg
      cases hmsg
    · rintro (h4 | hlen)
      · exact ⟨_, by unfold tag; rw [if_pos h4]⟩
      · by_cases h4 : name.length = 4
        · refine ⟨"bad tag length", ?_⟩
          unfold tag
          rw [if_neg (by simp [h4])]
          simp only [flatten]
          rw [if_pos (by omega)]
        · exact ⟨_, by unfold tag; rw [if_pos h4]⟩

/-- C5 witness: wrapping a 3-byte payload in a `moov` box. -/
theorem tag_c5_witness :
    tag "moov" (.bytes [1, 2, 3]) =
      .ok (encodeInt32 ((8 + ([1, 2, 3] : Bytes).length : Nat) : Int) ++
        "moov".data.map Char.toNat ++ [1, 2, 3]) ∧
      beDecode4 (encodeInt32 ((8 + ([1, 2, 3] : Bytes).length : Nat) : Int) ++
        "moov".data.map Char.toNat ++ [1, 2, 3]) = 8 + ([1, 2, 3] : Bytes).length :=
  ⟨((tag_c5 "moov" [1, 2, 3] (by decide)).1 (by decide) (by norm_num)).1,
   ((tag_c5 "moov" [1, 2, 3] (by decide)).1 (by decide) (by norm_num)).2.1⟩

/-!  C6: audio envelope parsing.  -/

/-- C6 counterexample: the envelope byte `0b00101010` (= 42) does not parse
to sample rate 44100 with bit depth 8 — its rate-index bits (3..2) are `10`
(index 2) and its bit-depth bit is set. -/
theorem parseAudiodata_c6_counterexample :
    ¬((parseAudiodata [42, 0, 0]).rate = 44100 ∧
      (parseAudiodata [42, 0, 0]).size = 8) := by decide

theorem and2_ne_zero_iff (b : Nat) : (b &&& 2 ≠ 0) ↔ b / 2 % 2 = 1 := by
  have h := Nat.and_two_pow b 1
  norm_num at h
  rw [h, Nat.testBit_to_div_mod]
  norm_num

/-- C6 amended: the envelope byte `0b00101010` parses to codec 2 (MP3),
sample rate 22050 (rate index 2), bit depth 16, mono, with the frame sample
count in {384, 576, 1152} whatever the following MPEG header bits are; and
in general byte 0 decodes as codec id = high 4 bits, sample-rate index =
bits 3..2 (indexing {5500, 11025, 22050, 44100}), bit-depth flag = bit 1
(8 or 16), channel flag = bit 0 (mono or stereo). -/
theorem parseAudiodata_c6_amended :
    (∀ rest : Bytes,
      (parseAudiodata (42 :: rest)).codecId = 2 ∧
      (parseAudiodata (42 :: rest)).rate = 22050 ∧
      (parseAudiodata (42 :: rest)).size = 16 ∧
      (parseAudiodata (42 :: rest)).channels = 1 ∧
      ((parseAudiodata (42 :: rest)).samples = some 384 ∨
       (parseAudiodata (42 :: rest)).samples = some 576 ∨
       (parseAudiodata (42 :: rest)).samples = some 1152)) ∧
    (∀ (b0 : Nat) (rest : Bytes),
      (parseAudiodata (b0 :: rest)).codecId = b0 / 16 ∧
      (parseAudiodata (b0 :: rest)).rate = SOUNDRATES.getD (b0 / 4 % 4) 0 ∧
      (parseAudiodata (b0 :: rest)).size =
        (if b0 / 2 % 2 = 1 then 16 else 8) ∧
      (parseAudiodata (b0 :: rest)).channels =
        (if b0 % 2 = 1 then 2 else 1)) := by
  constructor
  · intro rest
    have e1 : ((42 : Nat) >>> 4) = 2 := by decide
    have e2 : (((42 : Nat) >>> 2) &&& 3) = 2 := by decide
    have e3 : ((42 : Nat) &&& 2) = 2 := by decide
    have e4 : ((42 : Nat) &&& 1) = 0 := by decide
    have e5 : ([5500, 11025, 22050, 44100] : List Nat).getD 2 0 = 22050 := by
      decide
    simp only [parseAudiodata, SOUNDRATES, AAC_SOUND_CODEC_ID,
      MP3_SOUND_CODEC_ID, List.getD_cons_zero, e1, e2, e3, e4, e5]
    norm_num
    split_ifs <;> simp
  · intro b0 rest
    have hdiv : b0 >>> 4 = b0 / 16 := by
      rw [Nat.shiftRight_eq_div_pow]
    have hdiv2 : b0 >>> 2 = b0 / 4 := by
      rw [Nat.shiftRight_eq_div_pow]
    have hand3 : b0 / 4 &&& 3 = b0 / 4 % 4 := by
      have h := Nat.and_pow_two_sub_one_eq_mod (b0 / 4) 2
      norm_num at h
      exact h
    unfold parseAudiodata
    simp only [List.getD_cons_zero, hdiv, hdiv2, hand3, Nat.and_one_is_mod,
      and2_ne_zero_iff, Nat.mod_two_ne_zero]
    split_ifs <;> simp_all

/-!  C7: fragment sequence numbers.

`SeqSpec m r` says: if the operation `r`, started in state `m`, succeeds,
then the fragment sequence numbers it emits continue `m.chunkIndex`
consecutively, and `chunkIndex` ends at the last emitted number.  -/

def SeqSpec (m : MP4Mux) (r : MuxResult) : Prop :=
  ∀ m' outs, r = .ok (m', outs) →
    m.chunkIndex ≤ m'.chunkIndex ∧
    fragSeqs outs = List.range' (m.chunkIndex + 1) (m'.chunkIndex - m.chunkIndex)

theorem seqSpec_error (m : MP4Mux) (e : MuxError) : SeqSpec m (.error e) := by
  intro m' outs h
  cases h

theorem seqSpec_ok_nil {m m' : MP4Mux} (h : m'.chunkIndex = m.chunkIndex) :
    SeqSpec m (.ok (m', [])) := by
  intro m₂ outs h2
  obtain ⟨h3, h4⟩ := Prod.mk.injEq .. ▸ (Except.ok.injEq .. ▸ h2)
  subst h3
  subst h4
  simp [fragSeqs, h]

theorem seqSpec_noStep (m : MP4Mux) : SeqSpec m (noStep m) :=
  seqSpec_ok_nil rfl

theorem seqSpec_headerStep (m : MP4Mux) : SeqSpec m m.headerStep := by
  intro m' outs h
  obtain ⟨tracks', hct, hm, ho⟩ := headerStep_ok h
  subst hm
  subst ho
  simp [fragSeqs]

theorem seqSpec_chunkStep (m : MP4Mux) : SeqSpec m m.chunkStep := by
  intro m' outs h
  obtain ⟨tracks', trafs, hct, hm, ho⟩ := chunkStep_ok h
  subst hm
  subst ho
  simp [fragSeqs]

theorem seqSpec_cachePush (m : MP4Mux) (tid : Int) (p : Packet) (ts : Int) :
    SeqSpec m (m.cachePush tid p ts) := by
  intro m' outs h
  obtain ⟨hv1, hv2, hm, ho⟩ := cachePush_ok h
  subst hm
  subst ho
  simp [fragSeqs]

theorem seqSpec_ceilingStep (m : MP4Mux) : SeqSpec m m.ceilingStep := by
  unfold MP4Mux.ceilingStep
  split
  · exact seqSpec_chunkStep m
  · exact seqSpec_noStep m

theorem seqSpec_andThen {m : MP4Mux} {r : MuxResult} {f : MP4Mux → MuxResult}
    (hr : SeqSpec m r) (hf : ∀ m₁, SeqSpec m₁ (f m₁)) :
    SeqSpec m (andThen r f) := by
  intro m' outs h
  obtain ⟨m₁, outs₁, outs₂, h1, h2, h3⟩ := andThen_ok h
  obtain ⟨ha, hb⟩ := hr m₁ outs₁ h1
  obtain ⟨hc, hd⟩ := hf m₁ m' outs₂ h2
  subst h3
  refine ⟨le_trans ha hc, ?_⟩
  rw [fragSeqs, List.filterMap_append, ← fragSeqs, ← fragSeqs, hb, hd]
  have := List.range'_append_1 (m.chunkIndex + 1)
    (m₁.chunkIndex - m.chunkIndex) (m'.chunkIndex - m₁.chunkIndex)
  rw [show m.chunkIndex + 1 + (m₁.chunkIndex - m.chunkIndex) =
    m₁.chunkIndex + 1 by omega] at this
  rw [this]
  congr 1
  omega

theorem seqSpec_pushPacket (m : MP4Mux) (ptype : Nat) (data : Bytes)
    (ts : Int) : SeqSpec m (m.pushPacket ptype data ts) := by
  unfold MP4Mux.pushPacket
  apply seqSpec_andThen
  · split
    · exact seqSpec_headerStep m
    · exact seqSpec_noStep m
  · intro m₁
    dsimp only
    split
    · split
      · exact seqSpec_andThen (seqSpec_cachePush _ _ _ _)
          fun m₂ => seqSpec_ceilingStep m₂
      · split
        · apply seqSpec_andThen
          · split
            · exact seqSpec_headerStep m₁
            · exact seqSpec_noStep m₁
          · exact fun m₂ => seqSpec_andThen (seqSpec_cachePush _ _ _ _)
              fun m₃ => seqSpec_ceilingStep m₃
        · exact seqSpec_error m₁ _
    · split
      · split
        · apply seqSpec_andThen
          · split
            · exact seqSpec_chunkStep m₁
            · exact seqSpec_noStep m₁
          · exact fun m₂ => seqSpec_andThen (seqSpec_cachePush _ _ _ _)
              fun m₃ => seqSpec_ceilingStep m₃
        · split
          · apply seqSpec_andThen
            · split
              · exact seqSpec_headerStep m₁
              · exact seqSpec_noStep m₁
            · intro m₂
              apply seqSpec_andThen
              · split
                · exact seqSpec_chunkStep m₂
                · exact seqSpec_noStep m₂
              · exact fun m₃ => seqSpec_andThen (seqSpec_cachePush _ _ _ _)
                  fun m₄ => seqSpec_ceilingStep m₄
          · exact seqSpec_error m₁ _
      · exact seqSpec_error m₁ _

theorem seqSpec_flush (m : MP4Mux) : SeqSpec m m.flush := by
  unfold MP4Mux.flush
  split
  · exact seqSpec_chunkStep m
  · exact seqSpec_ok_nil rfl

theorem seqSpec_run (m : MP4Mux) (cmds : List Cmd) :
    SeqSpec m (m.run cmds) := by
  induction cmds generalizing m with
  | nil => exact seqSpec_ok_nil rfl
  | cons c rest ih =>
    unfold MP4Mux.run
    apply seqSpec_andThen
    · cases c with
      | push t d ts => exact seqSpec_pushPacket m t d ts
      | flush => exact seqSpec_flush m
    · exact fun m₁ => ih m₁

theorem create_chunkIndex {md : Metadata} {m : MP4Mux}
    (h : MP4Mux.create md = .ok m) : m.chunkIndex = 0 := by
  unfold MP4Mux.create at h
  cases hti : md.trackinfo with
  | some infos =>
    rw [hti] at h
    dsimp only at h
    rcases hb : buildTracks md infos 0 (-1) (-1) with ⟨tracks, aid, vid⟩
    rw [hb] at h
    cases h
    rfl
  | none =>
    rw [hti] at h
    dsimp only at h
    by_cases ha : truthy md.audiocodecid
    · rw [if_pos ha] at h
      by_cases ha2 : md.audiocodecid ≠ some (.num 2)
      · rw [if_pos ha2] at h
        cases h
      · rw [if_neg ha2] at h
        dsimp only at h
        by_cases hv : truthy md.videocodecid
        · rw [if_pos hv] at h
          by_cases hv2 : md.videocodecid ≠ some (.num 4)
          · rw [if_pos hv2] at h; cases h
          · rw [if_neg hv2] at h; cases h; rfl
        · rw [if_neg hv] at h; cases h; rfl
    · rw [if_neg ha] at h
      dsimp only at h
      by_cases hv : truthy md.videocodecid
      · rw [if_pos hv] at h
        by_cases hv2 : md.videocodecid ≠ some (.num 4)
        · rw [if_pos hv2] at h; cases h
        · rw [if_neg hv2] at h; cases h; rfl
      · rw [if_neg hv] at h; cases h; rfl

/-- C7: over any successful sequence of `pushPacket`/`flush` calls on a
freshly constructed muxer, the emitted fragment sequence numbers are exactly
`1, 2, 3, …` (the list `range' 1 k` for the final `chunkIndex` `k`): they
start at 1 and increase by exactly 1 per emitted fragment. -/
theorem fragSeqs_c7 (md : Metadata) (m0 : MP4Mux)
    (hcreate : MP4Mux.create md = .ok m0) (cmds : List Cmd) (m' : MP4Mux)
    (outs : List Output) (hrun : m0.run cmds = .ok (m', outs)) :
    fragSeqs outs = List.range' 1 m'.chunkIndex := by
  obtain ⟨h1, h2⟩ := seqSpec_run m0 cmds m' outs hrun
  rw [create_chunkIndex hcreate] at h2
  simpa using h2

/-- C7 witness: the 5-inter-frame run on the legacy VP6 muxer emits exactly
the fragment sequence numbers `[1]`. -/
theorem fragSeqs_c7_witness :
    fragSeqs (muxOutputs (muxVP6.run (List.replicate 5 (.push 9 interVP6 0)))) =
      List.range' 1
        (muxStateD (muxVP6.run (List.replicate 5 (.push 9 interVP6 0)))).chunkIndex := by
  cases hrun : muxVP6.run (List.replicate 5 (.push 9 interVP6 0)) with
  | error e =>
    have hok : (muxVP6.run (List.replicate 5 (.push 9 interVP6 0))).isOk = true := by
      decide
    rw [hrun] at hok
    cases hok
  | ok p =>
    obtain ⟨m', outs⟩ := p
    have := fragSeqs_c7 mdVP6 muxVP6 create_mdVP6 _ m' outs hrun
    simpa [muxOutputs, muxStateD, hrun] using this

/-!  C1: the Uninitialized → HeaderEmitted transition.

`Preserves m r` says the operation emits no header and keeps `state`.  -/

def Preserves (m : MP4Mux) (r : MuxResult) : Prop :=
  ∀ m' outs, r = .ok (m', outs) → m'.state = m.state ∧ headerCount outs = 0

theorem headerCount_append (a b : List Output) :
    headerCount (a ++ b) = headerCount a + headerCount b := by
  simp [headerCount, List.filter_append]

theorem andThen_noStep (m : MP4Mux) (f : MP4Mux → MuxResult) :
    andThen (noStep m) f = f m := andThen_ok_nil m f

theorem preserves_error (m : MP4Mux) (e : MuxError) : Preserves m (.error e) := by
  intro m' outs h
  cases h

theorem preserves_ok_nil {m m' : MP4Mux} (h : m'.state = m.state) :
    Preserves m (.ok (m', [])) := by
  intro m₂ outs h2
  obtain ⟨h3, h4⟩ := Prod.mk.injEq .. ▸ (Except.ok.injEq .. ▸ h2)
  subst h3
  subst h4
  exact ⟨h, rfl⟩

theorem preserves_noStep (m : MP4Mux) : Preserves m (noStep m) :=
  preserves_ok_nil rfl

theorem preserves_chunkStep (m : MP4Mux) : Preserves m m.chunkStep := by
  intro m' outs h
  obtain ⟨tracks', trafs, hct, hm, ho⟩ := chunkStep_ok h
  subst hm
  subst ho
  exact ⟨rfl, rfl⟩

theorem preserves_cachePush (m : MP4Mux) (tid : Int) (p : Packet) (ts : Int) :
    Preserves m (m.cachePush tid p ts) := by
  intro m' outs h
  obtain ⟨hv1, hv2, hm, ho⟩ := cachePush_ok h
  subst hm
  subst ho
  exact ⟨rfl, rfl⟩

theorem preserves_ceilingStep (m : MP4Mux) : Preserves m m.ceilingStep := by
  unfold MP4Mux.ceilingStep
  split
  · exact preserves_chunkStep m
  · exact preserves_noStep m

theorem preserves_andThen {m : MP4Mux} {r : MuxResult} {f : MP4Mux → MuxResult}
    (hr : Preserves m r) (hf : ∀ m₁, Preserves m₁ (f m₁)) :
    Preserves m (andThen r f) := by
  intro m' outs h
  obtain ⟨m₁, outs₁, outs₂, h1, h2, h3⟩ := andThen_ok h
  obtain ⟨ha, hb⟩ := hr m₁ outs₁ h1
  obtain ⟨hc, hd⟩ := hf m₁ m' outs₂ h2
  subst h3
  rw [headerCount_append, hb, hd, hc, ha]
  exact ⟨rfl, rfl⟩

theorem pushPacket_preserves_state1 {m : MP4Mux} (h1 : m.state = 1)
    (ptype : Nat) (data : Bytes) (ts : Int) :
    Preserves m (m.pushPacket ptype data ts) := by
  unfold MP4Mux.pushPacket
  rw [if_neg (by simp [h1])]
  simp only [andThen_noStep]
  split
  · split
    · exact preserves_andThen (preserves_cachePush _ _ _ _)
        fun m₂ => preserves_ceilingStep m₂
    · split
      · rw [if_neg (by simp [h1])]
        simp only [andThen_noStep]
        exact preserves_andThen (preserves_cachePush _ _ _ _)
          fun m₂ => preserves_ceilingStep m₂
      · exact preserves_error m _
  · split
    · split
      · apply preserves_andThen
        · split
          · exact preserves_chunkStep m
          · exact preserves_noStep m
        · exact fun m₂ => preserves_andThen (preserves_cachePush _ _ _ _)
            fun m₃ => preserves_ceilingStep m₃
      · split
        · rw [if_neg (by simp [h1])]
          simp only [andThen_noStep]
          apply preserves_andThen
          · split
            · exact preserves_chunkStep m
            · exact preserves_noStep m
          · exact fun m₂ => preserves_andThen (preserves_cachePush _ _ _ _)
              fun m₃ => preserves_ceilingStep m₃
        · exact preserves_error m _
    · exact preserves_error m _

/-- C1 (amended): on the deferred-header path, while still Uninitialized, the
header transition fires on the arrival of an in-band NON-configuration sample
(AAC packet-type ≠ 0, or AVC packet-type ≠ 0): exactly one header is emitted
in that call and the state moves to 1; and once the state is 1 no later
`pushPacket` or `flush` ever emits a header again (the transition fires
exactly once). -/
theorem headerTransition_c1 (m : MP4Mux) (data : Bytes) (ts : Int)
    (hw : m.waitForAdditionalData = true) :
    (m.state = 0 → (parseAudiodata data).codecId = AAC_SOUND_CODEC_ID →
      (parseAudiodata data).packetType ≠ some 0 →
      ∀ m' outs, m.pushPacket AUDIO_PACKET data ts = .ok (m', outs) →
        headerCount outs = 1 ∧ m'.state = 1) ∧
    (m.state = 0 → (parseVideodata data).codecId = AVC_VIDEO_CODEC_ID →
      (parseVideodata data).packetType ≠ some 0 →
      ∀ m' outs, m.pushPacket VIDEO_PACKET data ts = .ok (m', outs) →
        headerCount outs = 1 ∧ m'.state = 1) ∧
    (m.state = 1 → ∀ ptype m' outs,
      m.pushPacket ptype data ts = .ok (m', outs) →
      headerCount outs = 0 ∧ m'.state = 1) ∧
    (∀ m' outs, m.flush = .ok (m', outs) →
      headerCount outs = 0 ∧ m'.state = m.state) := by
  refine ⟨?_, ?_, ?_, ?_⟩
  · intro h0 hc hp m' outs h
    unfold MP4Mux.pushPacket at h
    rw [if_neg (by simp [hw])] at h
    simp only [andThen_noStep] at h
    rw [if_pos trivial] at h
    rw [if_neg (by simp [hc, AAC_SOUND_CODEC_ID, MP3_SOUND_CODEC_ID])] at h
    rw [if_pos hc] at h
    rw [if_pos ⟨hp, h0⟩] at h
    obtain ⟨m₁, outs₁, outs₂, hh, hrest, hcat⟩ := andThen_ok h
    obtain ⟨tracks', hht, hm1, ho1⟩ := headerStep_ok hh
    have hrest' := preserves_andThen (f := fun m => m.ceilingStep)
      (preserves_cachePush m₁ m₁.audioTrackId (.audio (parseAudiodata data)) ts)
      (fun m₂ => preserves_ceilingStep m₂) m' outs₂ hrest
    subst hcat
    rw [headerCount_append, ho1, hrest'.2, hrest'.1, hm1]
    exact ⟨rfl, rfl⟩
  · intro h0 hc hp m' outs h
    unfold MP4Mux.pushPacket at h
    rw [if_neg (by simp [hw])] at h
    simp only [andThen_noStep] at h
    rw [if_neg (by decide), if_pos trivial] at h
    rw [if_neg (by simp [hc, AVC_VIDEO_CODEC_ID, VP6_VIDEO_CODEC_ID])] at h
    rw [if_pos hc] at h
    rw [if_pos ⟨hp, h0⟩] at h
    obtain ⟨m₁, outs₁, outs₂, hh, hrest, hcat⟩ := andThen_ok h
    obtain ⟨tracks', hht, hm1, ho1⟩ := headerStep_ok hh
    have hfpre : ∀ m₂ : MP4Mux, Preserves m₂
        (andThen
          (if (parseVideodata data).frameType = 1 ∧ m₂.cachedPackets ≠ 0 then
            m₂.chunkStep
          else noStep m₂)
          fun m₃ =>
            andThen
              (m₃.cachePush m₃.videoTrackId (.video (parseVideodata data)) ts)
              fun m₄ => m₄.ceilingStep) := by
      intro m₂
      apply preserves_andThen
      · split
        · exact preserves_chunkStep m₂
        · exact preserves_noStep m₂
      · exact fun m₃ => preserves_andThen (preserves_cachePush _ _ _ _)
          fun m₄ => preserves_ceilingStep m₄
    have hrest' := hfpre m₁ m' outs₂ hrest
    subst hcat
    rw [headerCount_append, ho1, hrest'.2, hrest'.1, hm1]
    exact ⟨rfl, rfl⟩
  · intro h1 ptype m' outs h
    have := pushPacket_preserves_state1 h1 ptype data ts m' outs h
    rw [this.1, h1]
    exact ⟨this.2, rfl⟩
  · intro m' outs h
    unfold MP4Mux.flush at h
    split at h
    · obtain ⟨hs, hh⟩ := preserves_chunkStep m m' outs h
      exact ⟨hh, hs⟩
    · obtain ⟨h3, h4⟩ := Prod.mk.injEq .. ▸ (Except.ok.injEq .. ▸ h)
      subst h3
      subst h4
      exact ⟨rfl, rfl⟩

/-- C1 counterexample: on the deferred path, an AAC configuration sample
(packet type 0) does NOT trigger header emission: the call succeeds but
leaves the muxer Uninitialized and produces no output, refuting the claim
that a packet-type-0 sample fires the transition. -/
theorem headerTransition_c1_counterexample :
    (muxStateD (runFromCreate mdAAC [.push 8 aacCfg 0])).waitForAdditionalData
        = true ∧
    (parseAudiodata aacCfg).codecId = AAC_SOUND_CODEC_ID ∧
    (parseAudiodata aacCfg).packetType = some 0 ∧
    (runFromCreate mdAAC [.push 8 aacCfg 0]).isOk = true ∧
    muxOutputs (runFromCreate mdAAC [.push 8 aacCfg 0]) = [] ∧
    (muxStateD (runFromCreate mdAAC [.push 8 aacCfg 0])).state = 0 := by
  decide

/-- The AAC track state after caching one configuration sample. -/
def aacTrack1 : MP4Track :=
  { language := "und"
    type := "mp4a"
    timescale := 44100
    cachedDuration := 0
    samplerate := some 44100
    channels := some 2
    cache := [⟨.audio (parseAudiodata aacCfg), 0⟩] }

/-- The deferred muxer of `mdAAC` after one configuration push. -/
def muxAAC1 : MP4Mux :=
  { tracks := [aacTrack1]
    audioTrackId := 0
    videoTrackId := -1
    waitForAdditionalData := true
    cachedPackets := 1
    state := 0
    chunkIndex := 0 }

/-- C1 witness: pushing an AAC raw frame to the deferred muxer that already
holds its configuration sample emits exactly one header and reaches state 1. -/
theorem headerTransition_c1_witness :
    headerCount (muxOutputs (muxAAC1.pushPacket AUDIO_PACKET aacRaw 23)) = 1 ∧
    (muxStateD (muxAAC1.pushPacket AUDIO_PACKET aacRaw 23)).state = 1 := by
  cases hrun : muxAAC1.pushPacket AUDIO_PACKET aacRaw 23 with
  | error e =>
    have hok : (muxAAC1.pushPacket AUDIO_PACKET aacRaw 23).isOk = true := by
      decide
    rw [hrun] at hok
    cases hok
  | ok p =>
    obtain ⟨m', outs⟩ := p
    have h := (headerTransition_c1 muxAAC1 aacRaw 23 (by decide)).1
      (by decide) (by decide) (by decide) m' outs hrun
    simp [muxOutputs, muxStateD, hrun, h.1, h.2]

/-!  C3: the chunking ceiling.  -/

/-- C3: after the parsed sample is cached, a pending-packet counter at the
ceiling (5) triggers a fragment flush — the ceiling step is exactly a chunk
step, which emits one fragment and resets the counter; and concretely,
pushing 5 VP6 inter frames into a fresh legacy muxer emits no fragment
during the first 4 pushes and exactly the fragment with sequence number 1
after the 5th. -/
theorem ceiling_c3 :
    (∀ m : MP4Mux, m.cachedPackets ≥ MAX_PACKETS_IN_CHUNK →
      m.ceilingStep = m.chunkStep ∧
      ∀ m' outs, m.ceilingStep = .ok (m', outs) →
        ∃ trafs, outs = [.fragment (m.chunkIndex + 1) trafs] ∧
          m'.cachedPackets = 0) ∧
    fragSeqs (muxOutputs
      (runFromCreate mdVP6 (List.replicate 4 (.push 9 interVP6 0)))) = [] ∧
    fragSeqs (muxOutputs
      (runFromCreate mdVP6 (List.replicate 5 (.push 9 interVP6 0)))) = [1] ∧
    (runFromCreate mdVP6 (List.replicate 5 (.push 9 interVP6 0))).isOk
      = true := by
  refine ⟨?_, by decide, by decide, by decide⟩
  intro m hge
  have he : m.ceilingStep = m.chunkStep := by
    unfold MP4Mux.ceilingStep
    rw [if_pos hge]
  refine ⟨he, ?_⟩
  intro m' outs hok
  rw [he] at hok
  obtain ⟨tracks', trafs, hct, hm, ho⟩ := chunkStep_ok hok
  subst hm
  exact ⟨trafs, ho, rfl⟩

/-- A VP6 track holding five cached inter frames. -/
def vp6Track5 : MP4Track :=
  { vp6Track with
    cache := List.replicate 5 ⟨.video (parseVideodata interVP6), 0⟩ }

/-- The legacy VP6 muxer at the moment the fifth sample has been cached. -/
def muxVP6_5 : MP4Mux :=
  { muxVP6 with
    tracks := [vp6Track5]
    cachedPackets := 5
    state := 1 }

/-- C3 witness: at a counter of 5 the ceiling step is the chunk step. -/
theorem ceiling_c3_witness : muxVP6_5.ceilingStep = muxVP6_5.chunkStep :=
  (ceiling_c3.1 muxVP6_5 (by decide)).1

/-!  C2: GOP-aligned flushing on a key frame.  -/

theorem pushCacheAt_pending (ts : List MP4Track) (i : Nat) (c : CachedPacket)
    (h : i < ts.length) :
    ((pushCacheAt ts i c).map fun t => t.cache.length).sum =
      ((ts.map fun t => t.cache.length).sum) + 1 := by
  induction ts generalizing i with
  | nil => cases h
  | cons t rest ih =>
    cases i with
    | zero => simp [pushCacheAt]; omega
    | succ n =>
      simp only [pushCacheAt, List.map_cons, List.sum_cons]
      rw [ih n (by simpa using h)]
      omega

theorem pushCacheAt_getD (ts : List MP4Track) (i : Nat) (c : CachedPacket)
    (h : i < ts.length) :
    (pushCacheAt ts i c).getD i default =
      { ts.getD i default with cache := (ts.getD i default).cache ++ [c] } := by
  induction ts generalizing i with
  | nil => cases h
  | cons t rest ih =>
    cases i with
    | zero => simp [pushCacheAt]
    | succ n =>
      simp only [pushCacheAt, List.getD_cons_succ]
      exact ih n (by simpa using h)

theorem pending_zero_of_clears {ts : List MP4Track}
    (h : ∀ t ∈ ts, t.cache = []) :
    ((ts.map fun t => t.cache.length).sum) = 0 := by
  induction ts with
  | nil => rfl
  | cons t rest ih =>
    simp only [List.map_cons, List.sum_cons]
    rw [h t (List.mem_cons_self ..), ih fun u hu => h u (List.mem_cons_of_mem _ hu)]
    rfl

theorem length_eq_of_chunkTracks {ts ts' : List MP4Track}
    {trafs : List TrafData} {tid : Nat}
    (h : chunkTracks ts tid = .ok (ts', trafs)) : ts'.length = ts.length := by
  have := chunkTracks_types h
  have h1 := congrArg List.length this
  simpa using h1

/-- The common tail of a key-frame push: fragment flush, then caching, then
the (never-triggered) ceiling check. -/
theorem chunk_then_push_tail {m : MP4Mux} {vp : VideoPacket} {ts : Int}
    {m' : MP4Mux} {outs : List Output}
    (h : andThen m.chunkStep
      (fun m₂ => andThen (m₂.cachePush m₂.videoTrackId (.video vp) ts)
        fun m₃ => m₃.ceilingStep) = .ok (m', outs)) :
    ∃ tracks' trafs, chunkTracks m.tracks 1 = .ok (tracks', trafs) ∧
      outs = [.fragment (m.chunkIndex + 1) trafs] ∧
      m'.cachedPackets = 1 ∧ m'.pendingCount = 1 ∧
      0 ≤ m.videoTrackId ∧ m.videoTrackId.toNat < m.tracks.length ∧
      (m'.tracks.getD m.videoTrackId.toNat default).cache = [⟨.video vp, ts⟩] := by
  obtain ⟨m₁, outs₁, outs₂, hch, hrest, hcat⟩ := andThen_ok h
  obtain ⟨tracks', trafs, hct, hm1, ho1⟩ := chunkStep_ok hch
  obtain ⟨m₂, outs₃, outs₄, hcp, hceil, hcat2⟩ := andThen_ok hrest
  obtain ⟨hv1, hv2, hm2, ho3⟩ := cachePush_ok hcp
  subst hm1
  subst hm2
  unfold MP4Mux.ceilingStep at hceil
  rw [if_neg (by simp [MAX_PACKETS_IN_CHUNK])] at hceil
  unfold noStep at hceil
  obtain ⟨he1, he2⟩ := Prod.mk.injEq .. ▸ (Except.ok.injEq .. ▸ hceil)
  subst he1
  subst he2
  subst hcat
  subst hcat2
  subst ho1
  subst ho3
  have hlen := length_eq_of_chunkTracks hct
  have hvlt : m.videoTrackId.toNat < m.tracks.length := by
    simpa [hlen] using hv2
  have hclear := chunkTracks_clears hct
  refine ⟨tracks', trafs, hct, by simp, rfl, ?_, hv1, hvlt, ?_⟩
  · unfold MP4Mux.pendingCount
    dsimp only
    rw [pushCacheAt_pending _ _ _ (by simpa using hv2),
      pending_zero_of_clears hclear]
  · dsimp only
    rw [pushCacheAt_getD _ _ _ (by simpa using hv2)]
    have hlt : m.videoTrackId.toNat < tracks'.length := by simpa using hv2
    have hcz : (tracks'[m.videoTrackId.toNat]?.getD default).cache = [] := by
      rw [List.getElem?_eq_getElem hlt, Option.getD_some]
      exact hclear _ (List.getElem_mem _)
    simp [hcz]

/-- C2 (amended): a key-frame video push (VP6 or AVC) with a nonzero pending
count flushes the pending fragment before caching the key frame — provided
the call does not itself trigger header emission (header emission clears the
caches and the counter first).  Afterwards the key frame is the sole pending
sample, held in the video track's cache, and the emitted fragment folds
exactly the previously pending caches. -/
theorem gop_c2_amended (m : MP4Mux) (data : Bytes) (ts : Int)
    (hnohdr1 : ¬(m.state = 0 ∧ m.waitForAdditionalData = false))
    (hnohdr2 : ¬((parseVideodata data).codecId = AVC_VIDEO_CODEC_ID ∧
      (parseVideodata data).packetType ≠ some 0 ∧ m.state = 0))
    (hcodec : (parseVideodata data).codecId = VP6_VIDEO_CODEC_ID ∨
      (parseVideodata data).codecId = AVC_VIDEO_CODEC_ID)
    (hkey : (parseVideodata data).frameType = 1)
    (hpend : m.cachedPackets ≠ 0) :
    ∀ m' outs, m.pushPacket VIDEO_PACKET data ts = .ok (m', outs) →
      ∃ tracks' trafs,
        chunkTracks m.tracks 1 = .ok (tracks', trafs) ∧
        outs = [.fragment (m.chunkIndex + 1) trafs] ∧
        m'.cachedPackets = 1 ∧ m'.pendingCount = 1 ∧
        0 ≤ m.videoTrackId ∧ m.videoTrackId.toNat < m.tracks.length ∧
        (m'.tracks.getD m.videoTrackId.toNat default).cache =
          [⟨.video (parseVideodata data), ts⟩] := by
  intro m' outs h
  unfold MP4Mux.pushPacket at h
  rw [if_neg hnohdr1] at h
  simp only [andThen_noStep] at h
  rw [if_neg (by decide), if_pos trivial] at h
  rcases hcodec with hvp6 | havc
  · rw [if_pos hvp6] at h
    rw [if_pos ⟨hkey, hpend⟩] at h
    exact chunk_then_push_tail h
  · rw [if_neg (by simp [havc, AVC_VIDEO_CODEC_ID, VP6_VIDEO_CODEC_ID])] at h
    rw [if_pos havc] at h
    rw [if_neg fun hcon => hnohdr2 ⟨havc, hcon.1, hcon.2⟩] at h
    simp only [andThen_noStep] at h
    rw [if_pos ⟨hkey, hpend⟩] at h
    exact chunk_then_push_tail h

/-- C2 counterexample: on the deferred AVC path, a key-frame push with one
pending packet triggers header emission instead, which clears the pending
sample without emitting any fragment — refuting the unconditional claim. -/
theorem gop_c2_counterexample :
    (muxStateD (runFromCreate mdAVC [.push 9 avcCfg 0])).cachedPackets = 1 ∧
    (parseVideodata avcKey).frameType = 1 ∧
    (parseVideodata avcKey).codecId = AVC_VIDEO_CODEC_ID ∧
    (runFromCreate mdAVC [.push 9 avcCfg 0, .push 9 avcKey 40]).isOk = true ∧
    fragSeqs (muxOutputs
      (runFromCreate mdAVC [.push 9 avcCfg 0, .push 9 avcKey 40])) = [] := by
  decide

/-- The legacy VP6 track with two cached inter frames. -/
def vp6Track2 : MP4Track :=
  { vp6Track with
    cache := [⟨.video (parseVideodata interVP6), 0⟩,
              ⟨.video (parseVideodata interVP6), 33⟩] }

/-- The legacy VP6 muxer with header emitted and two pending inter frames. -/
def muxVP6_2 : MP4Mux :=
  { muxVP6 with
    tracks := [vp6Track2]
    cachedPackets := 2
    state := 1 }

/-- C2 witness: pushing a VP6 key frame with two pending packets flushes them
into fragment 1 and leaves the key frame as the sole pending sample. -/
theorem gop_c2_witness :
    ∃ tracks' trafs,
      chunkTracks muxVP6_2.tracks 1 = .ok (tracks', trafs) ∧
      muxOutputs (muxVP6_2.pushPacket VIDEO_PACKET keyVP6 66) =
        [.fragment (muxVP6_2.chunkIndex + 1) trafs] ∧
      (muxStateD (muxVP6_2.pushPacket VIDEO_PACKET keyVP6 66)).cachedPackets = 1 ∧
      (muxStateD (muxVP6_2.pushPacket VIDEO_PACKET keyVP6 66)).pendingCount = 1 := by
  cases hrun : muxVP6_2.pushPacket VIDEO_PACKET keyVP6 66 with
  | error e =>
    have hok : (muxVP6_2.pushPacket VIDEO_PACKET keyVP6 66).isOk = true := by
      decide
    rw [hrun] at hok
    cases hok
  | ok p =>
    obtain ⟨m', outs⟩ := p
    obtain ⟨tracks', trafs, hct, ho, hc1, hp1, _⟩ :=
      gop_c2_amended muxVP6_2 keyVP6 66 (by decide) (by decide)
        (Or.inl (by decide)) (by decide) (by decide) m' outs hrun
    exact ⟨tracks', trafs, hct, by simp [muxOutputs, hrun, ho],
      by simp [muxStateD, hrun, hc1], by simp [muxStateD, hrun, hp1]⟩

/-!  C9: header generation versus empty caches.  -/

/-- C9 counterexample: a configuration sample (packet type 0) does not
trigger header emission — pushing the AVC configuration sample of `mdBoth`'s
second track succeeds, emits nothing, and leaves the muxer Uninitialized
even though the `mp4a` track's cache is empty, refuting the claim's
"configuration sample of a different track triggers the header" example. -/
theorem header_c9_counterexample :
    (parseVideodata avcCfg).packetType = some 0 ∧
    (runFromCreate mdBoth [.push 9 avcCfg 0]).isOk = true ∧
    muxOutputs (runFromCreate mdBoth [.push 9 avcCfg 0]) = [] ∧
    (muxStateD (runFromCreate mdBoth [.push 9 avcCfg 0])).state = 0 := by
  decide

/-- C9 (amended): header generation succeeds only when every `mp4a` and
`avc1` track holds at least one cached sample; if every track type is
supported and some `mp4a`/`avc1` track has an empty cache, it fails with the
runtime `TypeError` of dereferencing `cache[0]` — none of the specified
error kinds.  This is reachable on the deferred path: a NON-configuration
sample of a different track triggers the header (concretely, after caching
only the AVC configuration, an AVC key frame trips over the empty `mp4a`
cache). -/
theorem header_c9_amended (m : MP4Mux) :
    (∀ m' out, m.generateHeader = .ok (m', out) →
      ∀ t ∈ m.tracks, (t.type = "mp4a" ∨ t.type = "avc1") → t.cache ≠ []) ∧
    ((∀ t ∈ m.tracks, supportedType t) →
      (∃ t ∈ m.tracks, (t.type = "mp4a" ∨ t.type = "avc1") ∧ t.cache = []) →
      m.generateHeader =
        .error (.typeError "cannot read packet of undefined: cache[0]")) ∧
    (∃ msg, runFromCreate mdBoth [.push 9 avcCfg 0, .push 9 avcKey 40] =
      .error (.typeError msg)) := by
  refine ⟨?_, ?_, ?_⟩
  · intro m' out h
    obtain ⟨tracks', hct, _, _⟩ := generateHeader_ok h
    exact headerTracks_nonempty hct
  · intro hs he
    unfold MP4Mux.generateHeader
    rw [headerTracks_empty_error hs he]
  · exact ⟨"cannot read packet of undefined: cache[0]", by decide⟩

/-- C9 witness: the freshly constructed two-track muxer (both caches empty)
fails header generation with the runtime `TypeError`. -/
theorem header_c9_witness :
    (muxStateD (runFromCreate mdBoth [])).generateHeader =
      .error (.typeError "cannot read packet of undefined: cache[0]") :=
  (header_c9_amended (muxStateD (runFromCreate mdBoth []))).2.1
    (by decide) (by decide)

/-!  C10: packets for an unconfigured track.  -/

theorem cachePush_neg_one (m : MP4Mux) (tid : Int) (p : Packet) (ts : Int)
    (h : tid = -1) :
    m.cachePush tid p ts =
      .error (.typeError "cannot read cache of undefined: tracks[trackId]") := by
  subst h
  unfold MP4Mux.cachePush
  rw [if_neg]
  intro hcon
  exact absurd hcon.1 (by decide)

theorem generateHeader_total {m : MP4Mux}
    (hs : ∀ t ∈ m.tracks, supportedType t)
    (hne : ∀ t ∈ m.tracks, (t.type = "mp4a" ∨ t.type = "avc1") → t.cache ≠ []) :
    m.headerStep = .ok
      ({ m with
         tracks := m.tracks.map fun t => { t with cache := [] }
         cachedPackets := 0
         state := 1 }, [.header m.tracks.length]) := by
  unfold MP4Mux.headerStep MP4Mux.generateHeader
  rw [headerTracks_total hs hne]

theorem chunkStep_total {m : MP4Mux} (hs : ∀ t ∈ m.tracks, supportedType t) :
    ∃ tracks' trafs, m.chunkStep = .ok
      ({ m with
         tracks := tracks'
         chunkIndex := m.chunkIndex + 1
         cachedPackets := 0 },
       [.fragment (m.chunkIndex + 1) trafs]) := by
  obtain ⟨ts', trafs, hct⟩ := chunkTracks_total hs 1
  refine ⟨ts', trafs, ?_⟩
  unfold MP4Mux.chunkStep MP4Mux.chunk_
  rw [hct]

theorem supported_map_clear {ts : List MP4Track}
    (hs : ∀ t ∈ ts, supportedType t) :
    ∀ t ∈ ts.map (fun t => { t with cache := ([] : List CachedPacket) }),
      supportedType t := by
  intro t ht
  obtain ⟨u, hu, rfl⟩ := List.mem_map.mp ht
  exact hs u hu

/-- C10: for a muxer whose tracks are all of supported types with every
`mp4a`/`avc1` cache nonempty (as in any legacy construction), an audio
packet with a supported audio codec id (2 or 10) pushed when no audio track
was configured (`audioTrackId = -1`) fails with the runtime `TypeError` of
the `tracks[-1].cache` access — none of the specified error kinds — and
symmetrically for a video packet (codec 4 or 7) when no video track was
configured. -/
theorem missingTrack_c10 (m : MP4Mux) (data : Bytes) (ts : Int)
    (hs : ∀ t ∈ m.tracks, supportedType t)
    (hne : ∀ t ∈ m.tracks, (t.type = "mp4a" ∨ t.type = "avc1") → t.cache ≠ []) :
    (m.audioTrackId = -1 →
      ((parseAudiodata data).codecId = MP3_SOUND_CODEC_ID ∨
       (parseAudiodata data).codecId = AAC_SOUND_CODEC_ID) →
      m.pushPacket AUDIO_PACKET data ts =
        .error (.typeError "cannot read cache of undefined: tracks[trackId]")) ∧
    (m.videoTrackId = -1 →
      ((parseVideodata data).codecId = VP6_VIDEO_CODEC_ID ∨
       (parseVideodata data).codecId = AVC_VIDEO_CODEC_ID) →
      m.pushPacket VIDEO_PACKET data ts =
        .error (.typeError "cannot read cache of undefined: tracks[trackId]")) := by
  constructor
  · intro haid hcodec
    unfold MP4Mux.pushPacket
    by_cases hentry : m.state = 0 ∧ m.waitForAdditionalData = false
    · rw [if_pos hentry, generateHeader_total hs hne, andThen_ok_left]
      dsimp only
      rw [if_pos (rfl : AUDIO_PACKET = AUDIO_PACKET)]
      rcases hcodec with hmp3 | haac
      · rw [if_pos hmp3, cachePush_neg_one _ _ _ _ haid, andThen_error]
      · rw [if_neg (by simp [haac, AAC_SOUND_CODEC_ID, MP3_SOUND_CODEC_ID]),
          if_pos haac]
        rw [if_neg (by intro hcon; exact absurd hcon.2 (by decide))]
        simp only [andThen_noStep]
        rw [cachePush_neg_one _ _ _ _ haid, andThen_error]
    · rw [if_neg hentry]
      simp only [andThen_noStep]
      rw [if_pos trivial]
      rcases hcodec with hmp3 | haac
      · rw [if_pos hmp3, cachePush_neg_one _ _ _ _ haid, andThen_error]
      · rw [if_neg (by simp [haac, AAC_SOUND_CODEC_ID, MP3_SOUND_CODEC_ID]),
          if_pos haac]
        by_cases hhdr : (parseAudiodata data).packetType ≠ some 0 ∧ m.state = 0
        · rw [if_pos hhdr, generateHeader_total hs hne, andThen_ok_left]
          dsimp only
          rw [cachePush_neg_one _ _ _ _ haid, andThen_error]
        · rw [if_neg hhdr]
          simp only [andThen_noStep]
          rw [cachePush_neg_one _ _ _ _ haid, andThen_error]
  · intro hvid hcodec
    unfold MP4Mux.pushPacket
    by_cases hentry : m.state = 0 ∧ m.waitForAdditionalData = false
    · rw [if_pos hentry, generateHeader_total hs hne, andThen_ok_left]
      dsimp only
      rw [if_neg (show ¬VIDEO_PACKET = AUDIO_PACKET by decide),
        if_pos (rfl : VIDEO_PACKET = VIDEO_PACKET)]
      rcases hcodec with hvp6 | havc
      · rw [if_pos hvp6]
        rw [if_neg (by intro hcon; exact absurd hcon.2 (by decide))]
        simp only [andThen_noStep]
        rw [cachePush_neg_one _ _ _ _ hvid, andThen_error]
      · rw [if_neg (by simp [havc, AVC_VIDEO_CODEC_ID, VP6_VIDEO_CODEC_ID]),
          if_pos havc]
        rw [if_neg (by intro hcon; exact absurd hcon.2 (by decide))]
        simp only [andThen_noStep]
        rw [if_neg (by intro hcon; exact absurd hcon.2 (by decide))]
        simp only [andThen_noStep]
        rw [cachePush_neg_one _ _ _ _ hvid, andThen_error]
    · rw [if_neg hentry]
      simp only [andThen_noStep]
      rw [if_neg (by decide), if_pos trivial]
      rcases hcodec with hvp6 | havc
      · rw [if_pos hvp6]
        by_cases hkf : (parseVideodata data).frameType = 1 ∧ m.cachedPackets ≠ 0
        · rw [if_pos hkf]
          obtain ⟨tracks', trafs, hchunk⟩ := chunkStep_total hs
          rw [hchunk, andThen_ok_left]
          dsimp only
          rw [cachePush_neg_one _ _ _ _ hvid, andThen_error]
        · rw [if_neg hkf]
          simp only [andThen_noStep]
          rw [cachePush_neg_one _ _ _ _ hvid, andThen_error]
      · rw [if_neg (by simp [havc, AVC_VIDEO_CODEC_ID, VP6_VIDEO_CODEC_ID]),
          if_pos havc]
        by_cases hhdr : (parseVideodata data).packetType ≠ some 0 ∧ m.state = 0
        · rw [if_pos hhdr, generateHeader_total hs hne, andThen_ok_left]
          dsimp only
          rw [if_neg (by intro hcon; exact absurd hcon.2 (by decide))]
          simp only [andThen_noStep]
          rw [cachePush_neg_one _ _ _ _ hvid, andThen_error]
        · rw [if_neg hhdr]
          simp only [andThen_noStep]
          by_cases hkf : (parseVideodata data).frameType = 1 ∧ m.cachedPackets ≠ 0
          · rw [if_pos hkf]
            obtain ⟨tracks', trafs, hchunk⟩ := chunkStep_total hs
            rw [hchunk, andThen_ok_left]
            dsimp only
            rw [cachePush_neg_one _ _ _ _ hvid, andThen_error]
          · rw [if_neg hkf]
            simp only [andThen_noStep]
            rw [cachePush_neg_one _ _ _ _ hvid, andThen_error]

/-- C10 witness: pushing an MP3 audio packet into the fresh legacy video-only
VP6 muxer (no audio track configured) raises the track-access `TypeError`. -/
theorem missingTrack_c10_witness :
    muxVP6.pushPacket AUDIO_PACKET mp3Frame 0 =
      .error (.typeError "cannot read cache of undefined: tracks[trackId]") :=
  (missingTrack_c10 muxVP6 mp3Frame 0 (by decide) (by decide)).1
    (by decide) (Or.inl (by decide))

end MP4
end RtmpJs
